import Mathlib

/-!
Verification development for the rchv repository's streaming ustar tar codec
(`TarStream`, `UnTarStream`, `parsePathname`, `validTarStreamOptions`).
Byte sequences are modelled as `List Nat` (each element a byte value),
JS numbers that may be NaN as `Option Int` (with `none` playing NaN),
and the generator-based streaming code as pure functions; the one loop in
`parsePathname` whose termination is in question is given explicit fuel.
-/

namespace Rchv

/-- Error kinds raised by the codec (encoder and decoder). -/
inductive TarErr where
  | invalidOptions
  | invalidSize
  | invalidPathname
  | invalidFilename
  | unsplittable
  | rangeErr
  | sizeMismatch
  | misaligned
  | tooSmall
  | invalidEnding
  | checksumMismatch
  | unexpectedEnd
  deriving DecidableEq, Repr

/-! ## JS primitives: octal printing, padding, UTF-8, slices -/

/-- ASCII character of a digit value below 8. -/
def octDigitChar (n : Nat) : Char := Char.ofNat (48 + n)

/-- Octal digits of a natural number; fuel-based so it reduces in the kernel.
Any fuel above the number itself is enough. -/
def octCharsAux : Nat → Nat → List Char
  | 0, _ => []
  | f + 1, n =>
    if n < 8 then [octDigitChar n]
    else octCharsAux f (n / 8) ++ [octDigitChar (n % 8)]

/-- Model of JS `Number.prototype.toString(8)` on a natural number. -/
def octString (n : Nat) : String := String.mk (octCharsAux (n + 1) n)

/-- Model of `toString(8)` on an integer, with a minus sign when negative. -/
def jsOctString (i : Int) : String :=
  if i < 0 then String.mk ('-' :: (octString i.natAbs).data) else octString i.toNat

/-- Model of JS `String.prototype.padStart(w, c)`. -/
def padStartStr (s : String) (w : Nat) (c : Char) : String :=
  String.mk (List.replicate (w - s.data.length) c ++ s.data)

/-- Model of JS `String.prototype.padEnd(w, c)`. -/
def padEndStr (s : String) (w : Nat) (c : Char) : String :=
  String.mk (s.data ++ List.replicate (w - s.data.length) c)

/-- UTF-8 bytes of one scalar value (what `TextEncoder` emits per code point). -/
def utf8EncodeChar (c : Char) : List Nat :=
  let n := c.toNat
  if n < 128 then [n]
  else if n < 2048 then [192 + n / 64, 128 + n % 64]
  else if n < 65536 then [224 + n / 4096, 128 + n / 64 % 64, 128 + n % 64]
  else [240 + n / 262144, 128 + n / 4096 % 64, 128 + n / 64 % 64, 128 + n % 64]

/-- Model of `TextEncoder.encode`. -/
def utf8Encode (s : String) : List Nat := (s.data.map utf8EncodeChar).flatten

/-- Replacement character emitted by `TextDecoder` on malformed input. -/
def replChar : Char := Char.ofNat 65533

/-- Whether a byte is a UTF-8 continuation byte. -/
def contByte (b : Nat) : Bool := 128 ≤ b && b < 192

/-- One UTF-8 decoding step: the decoded character for lead byte `b` and how
many further bytes of the remainder it consumed. -/
def utf8DecodeStep (b : Nat) (rest : List Nat) : Char × Nat :=
  if b < 128 then (Char.ofNat b, 0)
  else if b < 192 then (replChar, 0)
  else if b < 224 then
    match rest with
    | c1 :: _ =>
      if contByte c1 then (Char.ofNat ((b - 192) * 64 + (c1 - 128)), 1) else (replChar, 0)
    | [] => (replChar, 0)
  else if b < 240 then
    match rest with
    | c1 :: c2 :: _ =>
      if contByte c1 && contByte c2 then
        (Char.ofNat ((b - 224) * 4096 + (c1 - 128) * 64 + (c2 - 128)), 2)
      else (replChar, 0)
    | _ => (replChar, 0)
  else
    match rest with
    | c1 :: c2 :: c3 :: _ =>
      if contByte c1 && contByte c2 && contByte c3 then
        (Char.ofNat ((b - 240) * 262144 + (c1 - 128) * 4096 + (c2 - 128) * 64 + (c3 - 128)), 3)
      else (replChar, 0)
    | _ => (replChar, 0)

/-- Fueled UTF-8 decoding loop; fuel at least the list length is enough. -/
def utf8DecodeAux : Nat → List Nat → List Char
  | 0, _ => []
  | f + 1, l =>
    match l with
    | [] => []
    | b :: rest =>
      let s := utf8DecodeStep b rest
      s.1 :: utf8DecodeAux f (rest.drop s.2)

/-- Model of `TextDecoder.decode` (UTF-8, replacement on malformed input). -/
def utf8Decode (l : List Nat) : List Char := utf8DecodeAux l.length l

/-- Model of `TypedArray.prototype.set(src, off)` for an in-bounds write. -/
def jsSet (a src : List Nat) (off : Nat) : List Nat :=
  a.take off ++ src.take (a.length - off) ++ a.drop (off + src.length)

/-- Model of `TypedArray.prototype.slice(s, e)` with JS index clamping. -/
def jsSliceBytes (a : List Nat) (s e : Int) : List Nat :=
  let n : Int := a.length
  let s' := (if s < 0 then max 0 (n + s) else min s n).toNat
  let e' := (if e < 0 then max 0 (n + e) else min e n).toNat
  (a.take e').drop s'

/-- Model of `String.prototype.slice(start)` (to the end of the string). -/
def jsStrSliceFrom (s : String) (start : Int) : String :=
  let n : Int := s.data.length
  let s' := (if start < 0 then max 0 (n + start) else min start n).toNat
  String.mk (s.data.drop s')

/-- Backward scan used by `lastIndexOf(47, k)`: largest index at most `k`
holding byte 47, else -1. -/
def lastIdxAux (name : List Nat) : Nat → Int
  | 0 => if name.getD 0 0 = 47 then 0 else -1
  | k + 1 => if name.getD (k + 1) 0 = 47 then (k + 1 : Nat) else lastIdxAux name k

/-- Model of `Uint8Array.prototype.lastIndexOf(47, fromIndex)`. -/
def lastIndexOf47 (name : List Nat) (fromIdx : Int) : Int :=
  if name.length = 0 then -1
  else
    let f := if fromIdx < 0 then fromIdx + name.length
      else min fromIdx ((name.length : Int) - 1)
    if f < 0 then -1 else lastIdxAux name f.toNat

/-- Model of `Uint8Array.prototype.indexOf(47, fromIndex)`. -/
def indexOf47 (name : List Nat) (fromIdx : Int) : Int :=
  let start := (if fromIdx < 0 then max 0 (fromIdx + name.length) else fromIdx).toNat
  match (name.drop start).findIdx? (· = 47) with
  | some k => (start + k : Nat)
  | none => -1

/-! ## Pathname splitter (`parsePathname`) -/

/-- Split a character list on '/' (model of `String.prototype.split('/')`). -/
def splitSlash : List Char → List (List Char)
  | [] => [[]]
  | c :: t =>
    if c = '/' then [] :: splitSlash t
    else
      match splitSlash t with
      | h :: r => (c :: h) :: r
      | [] => [[c]]

/-- Join character lists with '/' (model of `Array.prototype.join('/')`). -/
def joinSlash : List (List Char) → List Char
  | [] => []
  | [x] => x
  | x :: r => x ++ '/' :: joinSlash r

/-- Normalization done at the head of `parsePathname`: collapse separators,
strip a leading "./", append '/' for directories. -/
def normalizePathname (pathname : String) (isDirectory : Bool) : String :=
  let p := String.mk (joinSlash ((splitSlash pathname.data).filter (fun x => !x.isEmpty)))
  let p2 := if p.data.take 2 = ['.', '/'] then String.mk (p.data.drop 2) else p
  if isDirectory then String.mk (p2.data ++ ['/']) else p2

/-- The backward scan `for (; i > 0; --i) ...` of `parsePathname`, with
explicit fuel; `none` means the fuel ran out with the loop still running. -/
def ppLoop (name : List Nat) : Nat → Int → Option Int
  | 0, i => if i > 0 then none else some i
  | fuel + 1, i =>
    if i > 0 then
      let j := lastIndexOf47 name i + 1
      if ((name.length : Int) - (j + 1)) > 100 then some (max 0 (indexOf47 name (j + 1)))
      else ppLoop name fuel (j - 1)
    else some i

/-- Code after the scan: slice out the prefix and name parts. -/
def ppFinish (name : List Nat) (i : Int) : Except TarErr (List Nat × List Nat) :=
  let pfx := jsSliceBytes name 0 i
  if pfx.length > 155 then Except.error TarErr.unsplittable
  else Except.ok (pfx, jsSliceBytes name (i + 1) (name.length : Int))

/-- Model of `parsePathname`; `none` means the backward scan never finished
within the given fuel. -/
def parsePathname (fuel : Nat) (pathname : String) (isDirectory : Bool) :
    Option (Except TarErr (List Nat × List Nat)) :=
  let p := normalizePathname pathname isDirectory
  let name := utf8Encode p
  if name.length ≤ 100 then some (Except.ok ([], name))
  else if name.length > 256 then some (Except.error TarErr.invalidPathname)
  else
    let i0 : Int := max 0 (lastIndexOf47 name ((name.length : Int) - 1))
    if (jsStrSliceFrom p (i0 + 1)).data.length > 100 then
      some (Except.error TarErr.invalidFilename)
    else (ppLoop name fuel i0).map (ppFinish name)

/-! ## Options bag and its validation (`validTarStreamOptions`) -/

/-- The partial options bag attached to a file or directory entry. -/
structure POpts where
  mode : Option String := none
  uid : Option String := none
  gid : Option String := none
  mtime : Option Int := none
  uname : Option String := none
  gname : Option String := none
  devmajor : Option String := none
  devminor : Option String := none
  deriving DecidableEq, Repr

/-- Whether a character is an ASCII octal digit. -/
def isOctDigitCh (c : Char) : Bool := 48 ≤ c.toNat && c.toNat ≤ 55

/-- Model of the source's test with the first-character class 0-7, plus, dollar:
true when the string starts with one of those characters. -/
def testOctFirst (s : String) : Bool :=
  match s.data with
  | [] => false
  | c :: _ => isOctDigitCh c || c = '+' || c = '$'

/-- Model of the all-ASCII test used on uname and gname. -/
def testAllAscii (s : String) : Bool := s.data.all (fun c => c.toNat ≤ 127)

/-- Model of the devmajor test: a literal space, one character of the class
whose members are digit zero, space (the only range in the class is the
degenerate space-to-space one), digit seven, plus and dollar, then another
literal space. -/
def testDevmajor (s : String) : Bool :=
  match s.data with
  | a :: b :: c :: _ =>
    a = ' ' && (b = '0' || b = ' ' || b = '7' || b = '+' || b = '$') && c = ' '
  | _ => false

/-- JS truthiness of an optional string (absent or empty is falsy). -/
def strTruthy (o : Option String) : Bool := o.getD "" ≠ ""

/-- JS truthiness of an optional integer (absent or zero is falsy). -/
def intTruthy (o : Option Int) : Bool := o.getD 0 ≠ 0

/-- Decimal digits of a natural number, fuel-based. -/
def decCharsAux : Nat → Nat → List Char
  | 0, _ => []
  | f + 1, n =>
    if n < 10 then [Char.ofNat (48 + n)]
    else decCharsAux f (n / 10) ++ [Char.ofNat (48 + n % 10)]

/-- Model of JS decimal `toString` on an integer. -/
def jsDecString (i : Int) : String :=
  if i < 0 then String.mk ('-' :: decCharsAux (i.natAbs + 1) i.natAbs)
  else String.mk (decCharsAux (i.toNat + 1) i.toNat)

/-- Model of `validTarStreamOptions` exactly as written in the source: it
evaluates to true when one of its (per-field) alternatives fires. -/
def validTarStreamOptions (o : POpts) : Bool :=
  (strTruthy o.mode && !testOctFirst (o.mode.getD "")) ||
  (strTruthy o.uid && !testOctFirst (o.uid.getD "")) ||
  (strTruthy o.gid && !testOctFirst (o.gid.getD "")) ||
  (intTruthy o.mtime && (jsDecString (o.mtime.getD 0) == "NaN")) ||
  (strTruthy o.uname && testAllAscii (o.uname.getD "")) ||
  (strTruthy o.gname && testAllAscii (o.gname.getD "")) ||
  (strTruthy o.devmajor && !testDevmajor (o.devmajor.getD "")) ||
  (strTruthy o.devminor && !testOctFirst (o.devminor.getD ""))

/-- JS `<` on numbers that may be NaN (`none` plays NaN): comparisons
involving NaN are false. -/
def jsLtNum : Option Int → Option Int → Bool
  | some a, some b => a < b
  | _, _ => false

/-- The encoder's size test (true means the size is rejected): negative,
above `8 ^ (12 or 11)`, or NaN. -/
def invalidSize (size : Option Int) (sizeExtension : Bool) : Bool :=
  jsLtNum size (some 0) ||
  jsLtNum (some ((8 : Int) ^ (if sizeExtension then 12 else 11))) size ||
  (size == none)

/-! ## Encoder (`TarStream`) -/

/-- An input descriptor: a file (with size, size-extension flag, body chunks,
options) or a directory (with options). -/
inductive Chunk where
  | file (pathname : String) (size : Option Int) (sizeExtension : Bool)
      (iterable : List (List Nat)) (options : Option POpts)
  | dir (pathname : String) (options : Option POpts)
  deriving DecidableEq, Repr

/-- Options bag of a descriptor. -/
def Chunk.options : Chunk → Option POpts
  | .file _ _ _ _ o => o
  | .dir _ o => o

/-- Pathname of a descriptor. -/
def Chunk.pathname : Chunk → String
  | .file p _ _ _ _ => p
  | .dir p _ => p

/-- Whether the descriptor is a file (has a `size`). -/
def Chunk.isFile : Chunk → Bool
  | .file .. => true
  | .dir .. => false

/-- Declared size of a descriptor (`none` plays NaN; directories have none). -/
def Chunk.size : Chunk → Option Int
  | .file _ s _ _ _ => s
  | .dir _ _ => some 0

/-- Size-extension flag of a descriptor. -/
def Chunk.sizeExtension : Chunk → Bool
  | .file _ _ e _ _ => e
  | .dir _ _ => false

/-- Body chunks of a descriptor. -/
def Chunk.iterable : Chunk → List (List Nat)
  | .file _ _ _ it _ => it
  | .dir _ _ => []

/-- Resolved mode string: an absent mode falls back to 755 for directories
and 644 for files, then is left-padded with zeros to six characters. -/
def modeStr (opts : Option POpts) (typeflag : Char) : String :=
  padStartStr ((opts.bind POpts.mode).getD (if typeflag = '5' then "755" else "644")) 6 '0'

/-- Resolved uid string: absent uid defaults to the empty string, padded to
six zeros. -/
def uidStr (opts : Option POpts) : String := padStartStr ((opts.bind POpts.uid).getD "") 6 '0'

/-- Resolved gid string, as for uid. -/
def gidStr (opts : Option POpts) : String := padStartStr ((opts.bind POpts.gid).getD "") 6 '0'

/-- The size field: octal size for files (empty for directories), padded to
11 digits (12 with the extension), followed by a space unless extended. -/
def sizeFieldStr (isFile : Bool) (size : Int) (ext : Bool) : String :=
  padStartStr (if isFile then jsOctString size else "") (if ext then 12 else 11) '0' ++
    (if ext then "" else " ")

/-- The mtime actually encoded: the option when present, else the clock. -/
def resolveMtime (opts : Option POpts) (now : Int) : Int := (opts.bind POpts.mtime).getD now

/-- The mtime field: 11 zero-padded octal digits and a space. -/
def mtimeFieldStr (opts : Option POpts) (now : Int) : String :=
  padStartStr (jsOctString (resolveMtime opts now)) 11 '0' ++ " "

/-- Resolved uname, NUL-padded to 32 bytes. -/
def unameStr (opts : Option POpts) : String :=
  padEndStr ((opts.bind POpts.uname).getD "") 32 '\x00'

/-- Resolved gname, NUL-padded to 32 bytes. -/
def gnameStr (opts : Option POpts) : String :=
  padEndStr ((opts.bind POpts.gname).getD "") 32 '\x00'

/-- Resolved devmajor, NUL-padded to 8 bytes. -/
def devmajorStr (opts : Option POpts) : String :=
  padEndStr ((opts.bind POpts.devmajor).getD "") 8 '\x00'

/-- Resolved devminor, NUL-padded to 8 bytes. -/
def devminorStr (opts : Option POpts) : String :=
  padEndStr ((opts.bind POpts.devminor).getD "") 8 '\x00'

/-- One hundred NUL characters (the linkname field). -/
def nul100 : String := String.mk (List.replicate 100 '\x00')

/-- The single string the encoder writes at offset 100: mode, uid, gid, size,
mtime, checksum placeholder spaces, typeflag, linkname, magic, version,
uname, gname, devmajor, devminor. -/
def headerFieldStr (opts : Option POpts) (typeflag : Char) (isFile : Bool)
    (size : Int) (ext : Bool) (now : Int) : String :=
  modeStr opts typeflag ++ " \x00" ++
  uidStr opts ++ " \x00" ++
  gidStr opts ++ " \x00" ++
  sizeFieldStr isFile size ext ++
  mtimeFieldStr opts now ++
  "        " ++
  String.singleton typeflag ++
  nul100 ++
  "ustar\x00" ++ "00" ++
  unameStr opts ++ gnameStr opts ++ devmajorStr opts ++ devminorStr opts

/-- The 512-byte header block the encoder emits: name at 0, the field string
at 100, the prefix at 345, then the checksum (octal byte-sum, six digits and
a NUL) written over offset 148. -/
def encodeHeader (nameB pfx : List Nat) (opts : Option POpts) (typeflag : Char)
    (isFile : Bool) (size : Int) (ext : Bool) (now : Int) : List Nat :=
  let field := utf8Encode (headerFieldStr opts typeflag isFile size ext now)
  let pre := jsSet (jsSet (jsSet (List.replicate 512 0) nameB 0) field 100) pfx 345
  jsSet pre (utf8Encode (padStartStr (octString pre.sum) 6 '0' ++ "\x00")) 148

/-- The fully-qualified path string recorded for duplicate suppression. -/
def entryPathString (pfx nameB : List Nat) : String :=
  if pfx.length ≠ 0 then
    String.mk (utf8Decode pfx) ++ "/" ++ String.mk (utf8Decode nameB)
  else String.mk (utf8Decode nameB)

/-- The encoder's generator: one pass over the descriptors producing the
emitted chunks; `none` when `parsePathname` is still looping when its fuel
runs out. -/
def goTar (now : Int) (fuel : Nat) :
    List String → List Chunk → Option (Except TarErr (List (List Nat)))
  | _, [] => some (Except.ok [List.replicate 1024 0])
  | paths, c :: rest =>
    if c.options.isSome && !validTarStreamOptions (c.options.getD {}) then
      some (Except.error TarErr.invalidOptions)
    else if c.isFile && invalidSize c.size c.sizeExtension then
      some (Except.error TarErr.invalidSize)
    else
      match parsePathname fuel c.pathname (!c.isFile) with
      | none => none
      | some (Except.error e) => some (Except.error e)
      | some (Except.ok (pfx, nameB)) =>
        let pathStr := entryPathString pfx nameB
        if paths.contains pathStr then goTar now fuel paths rest
        else
          let typeflag : Char := if c.isFile then '0' else '5'
          let ext := c.isFile && c.sizeExtension
          let s := c.size.getD 0
          let field := utf8Encode (headerFieldStr c.options typeflag c.isFile s ext now)
          if nameB.length > 512 || 100 + field.length > 512 || 345 + pfx.length > 512 then
            some (Except.error TarErr.rangeErr)
          else
            let hdr := encodeHeader nameB pfx c.options typeflag c.isFile s ext now
            if c.isFile then
              if s ≠ ((c.iterable.map List.length).sum : Int) then
                some (Except.error TarErr.sizeMismatch)
              else
                let pad : List (List Nat) :=
                  if s % 512 ≠ 0 then [List.replicate (512 - (s % 512).toNat) 0] else []
                (goTar now fuel (paths ++ [pathStr]) rest).map
                  (·.map fun tail => hdr :: (c.iterable ++ pad ++ tail))
            else
              (goTar now fuel (paths ++ [pathStr]) rest).map (·.map fun tail => hdr :: tail)

/-- The encoder: emitted chunk list for a descriptor list. -/
def tarGen (now : Int) (fuel : Nat) (inputs : List Chunk) :
    Option (Except TarErr (List (List Nat))) :=
  goTar now fuel [] inputs

/-- The encoder's byte output: all emitted chunks concatenated. -/
def tarBytes (now : Int) (fuel : Nat) (inputs : List Chunk) :
    Option (Except TarErr (List Nat)) :=
  (tarGen now fuel inputs).map (·.map List.flatten)

/-! ## Decoder (`UnTarStream`) -/

/-- JS whitespace characters relevant to `parseInt` and `trimEnd`. -/
def isJsSpaceCh (c : Char) : Bool :=
  c = ' ' || c = '\t' || c = '\n' || c = '\r' || c.toNat = 11 || c.toNat = 12 || c.toNat = 160

/-- Model of `String.prototype.trimEnd`. -/
def trimEndStr (s : String) : String :=
  String.mk ((s.data.reverse.dropWhile isJsSpaceCh).reverse)

/-- Octal digit run parser behind `parseInt(s, 8)`. -/
def parseOctDigits (t : List Char) : Option Nat :=
  let ds := t.takeWhile isOctDigitCh
  if ds.isEmpty then none
  else some (ds.foldl (fun a c => 8 * a + (c.toNat - 48)) 0)

/-- Model of JS `parseInt(s, 8)`: skip leading whitespace, optional sign,
then a maximal run of octal digits; NaN (`none`) when no digit is found. -/
def jsParseIntOct (s : String) : Option Int :=
  match s.data.dropWhile isJsSpaceCh with
  | [] => none
  | c :: t =>
    if c = '-' then (parseOctDigits t).map (fun n => -(n : Int))
    else if c = '+' then (parseOctDigits t).map (fun n => (n : Int))
    else (parseOctDigits (c :: t)).map (fun n => (n : Int))

/-- Regroup the concatenated byte stream into 512-byte blocks (first decoder
transform); `none` when a partial block remains at end of input. -/
def reblockAux : Nat → List Nat → Option (List (List Nat))
  | _, [] => some []
  | 0, _ => none
  | f + 1, l =>
    if l.length < 512 then none
    else (reblockAux f (l.drop 512)).map (l.take 512 :: ·)

/-- Block reassembly over a whole byte sequence. -/
def reblock (bytes : List Nat) : Option (List (List Nat)) := reblockAux bytes.length bytes

/-- Second decoder transform: forwards every block except the final two,
which must both exist and be all-zero (the archive terminator). -/
def trimTrailer (blocks : List (List Nat)) : Except TarErr (List (List Nat)) :=
  if blocks.length < 2 then Except.error TarErr.tooSmall
  else if !((blocks.drop (blocks.length - 2)).all fun b => b.all (· = 0)) then
    Except.error TarErr.invalidEnding
  else Except.ok (blocks.take (blocks.length - 2))

/-- Decode a byte slice of the header with `TextDecoder`. -/
def decodeSlice (value : List Nat) (s e : Int) : String :=
  String.mk (utf8Decode (jsSliceBytes value s e))

/-- Decode a byte slice and strip every NUL character (`replaceAll('\0','')`). -/
def decodeStripNul (value : List Nat) (s e : Int) : String :=
  String.mk ((utf8Decode (jsSliceBytes value s e)).filter (· ≠ '\x00'))

/-- The decoder's checksum validation: byte-sum with the checksum field
replaced by eight spaces, compared against the stored octal value. -/
def checksumOk (value : List Nat) : Bool :=
  let spaced := jsSet value (List.replicate 8 32) 148
  match jsParseIntOct (decodeSlice value 148 154) with
  | some n => ((spaced.sum : Int) == n)
  | none => false

/-- Whether the block carries the POSIX ustar magic and version at 257. -/
def ustarMagic (value : List Nat) : Bool :=
  (List.range 8).all fun i =>
    value.get? (257 + i) == [117, 115, 116, 97, 114, 0, 48, 48].get? i

/-- The parsed header record (old-style fields plus, when the magic matches,
the ustar fields; the `ustar` flag models the structural merge). -/
structure ParsedHeader where
  name : String
  mode : String
  uid : String
  gid : String
  size : Option Int
  mtime : Option Int
  checksum : String
  typeflag : String
  linkname : String
  ustar : Bool
  uname : String
  gname : String
  devmajor : String
  devminor : String
  pfx : String
  deriving DecidableEq, Repr

/-- Parse a 512-byte header block into its fields. -/
def parseHeaderBlock (value : List Nat) : ParsedHeader :=
  let base : ParsedHeader := {
    name := decodeStripNul value 0 100
    mode := decodeSlice value 100 106
    uid := decodeSlice value 108 114
    gid := decodeSlice value 116 122
    size := jsParseIntOct (trimEndStr (decodeSlice value 124 136))
    mtime := jsParseIntOct (decodeSlice value 136 147)
    checksum := decodeSlice value 148 154
    typeflag := decodeSlice value 156 157
    linkname := decodeStripNul value 157 257
    ustar := false
    uname := ""
    gname := ""
    devmajor := ""
    devminor := ""
    pfx := "" }
  let base := if base.typeflag = "\x00" then { base with typeflag := "0" } else base
  if ustarMagic value then
    { base with
      ustar := true
      uname := decodeStripNul value 265 297
      gname := decodeStripNul value 297 329
      devmajor := decodeStripNul value 329 337
      devminor := decodeStripNul value 337 345
      pfx := decodeStripNul value 345 500 }
  else base

/-- Pathname reported for an entry: prefix + "/" + name when a nonempty
ustar prefix is present, else the name alone. -/
def headerPathname (h : ParsedHeader) : String :=
  (if h.ustar && h.pfx.data.length ≠ 0 then h.pfx ++ "/" else "") ++ h.name

/-- A decoded entry: pathname, declared size, typeflag and (for regular
files) the concatenated bytes its body stream delivers. -/
structure Entry where
  pathname : String
  size : Option Int
  typeflag : String
  body : Option (List Nat)
  deriving DecidableEq, Repr

/-- Model of `Math.ceil(size / 512)` clamped by the `i > 0` pull guard:
the number of blocks the body sub-stream will read. -/
def blocksFor : Option Int → Nat
  | some s => if s > 0 then ((s + 511) / 512).toNat else 0
  | none => 0

/-- The body sub-stream (sequential pull path): reads `i` blocks, truncating
the final one to `size % 512` bytes; errors when input ends early. -/
def readBody (size : Int) : Nat → List (List Nat) → Except TarErr (List Nat × List (List Nat))
  | 0, blocks => Except.ok ([], blocks)
  | _ + 1, [] => Except.error TarErr.unexpectedEnd
  | i + 1, b :: bs =>
    let chunk := if i = 0 then b.take (size % 512).toNat else b
    (readBody size i bs).map fun r => (chunk ++ r.1, r.2)

/-- The decoder's header loop over reassembled blocks (fuel at least the
block count always suffices, since every step consumes the header block). -/
def untarGo : Nat → List (List Nat) → Except TarErr (List Entry)
  | _, [] => Except.ok []
  | 0, _ :: _ => Except.error TarErr.unexpectedEnd
  | f + 1, value :: rest =>
    if !checksumOk value then Except.error TarErr.checksumMismatch
    else
      let h := parseHeaderBlock value
      if h.typeflag = "0" then
        match readBody (h.size.getD 0) (blocksFor h.size) rest with
        | Except.error e => Except.error e
        | Except.ok (body, rest2) =>
          (untarGo f rest2).map fun es =>
            { pathname := headerPathname h, size := h.size, typeflag := h.typeflag,
              body := some body } :: es
      else
        (untarGo f rest).map fun es =>
          { pathname := headerPathname h, size := h.size, typeflag := h.typeflag,
            body := none } :: es

/-- Decode a list of content blocks into entries. -/
def untarBlocks (blocks : List (List Nat)) : Except TarErr (List Entry) :=
  untarGo blocks.length blocks

/-- The whole decoder: reassemble blocks, strip and check the terminator,
then parse entries. -/
def unTarPipeline (bytes : List Nat) : Except TarErr (List Entry) :=
  match reblock bytes with
  | none => Except.error TarErr.misaligned
  | some blocks =>
    match trimTrailer blocks with
    | Except.error e => Except.error e
    | Except.ok bs => untarBlocks bs

/-- Encoder piped into decoder, with the encoder's clock pinned. -/
def roundTrip (now : Int) (fuel : Nat) (inputs : List Chunk) :
    Option (Except TarErr (List Entry)) :=
  (tarBytes now fuel inputs).map (fun r => r.bind unTarPipeline)

/-- First emitted chunk of an encoder run (the first header block). -/
def firstHeader (r : Option (Except TarErr (List (List Nat)))) : List Nat :=
  match r with
  | some (Except.ok (hdr :: _)) => hdr
  | _ => []

/-- A 241-byte pathname: 150 bytes, a slash, then a 90-byte final component. -/
def longPathA : String := String.mk (List.replicate 150 'a' ++ '/' :: List.replicate 90 'b')

/-- A 171-byte pathname: 120 bytes, a slash, then a 50-byte final component. -/
def longPathB : String := String.mk (List.replicate 120 'x' ++ '/' :: List.replicate 50 'y')

/-- The header block emitted for the one-file archive used against C1. -/
def c1Header : List Nat := encodeHeader [97] [] none '0' true 512 false 0

end Rchv

namespace Rchv

set_option maxRecDepth 100000

/-- Fuel above the list length does not change what `reblockAux` computes. -/
theorem reblockAux_fuel_congr : ∀ (f g : Nat) (l : List Nat),
    l.length ≤ f → l.length ≤ g → reblockAux f l = reblockAux g l := by
  intro f
  induction f with
  | zero =>
    intro g l hf _
    have hl : l = [] := List.eq_nil_of_length_eq_zero (Nat.le_zero.mp hf)
    subst hl
    cases g <;> rfl
  | succ f ih =>
    intro g l hf hg
    cases l with
    | nil => cases g <;> rfl
    | cons b t =>
      cases g with
      | zero => simp at hg
      | succ g =>
        simp only [reblockAux]
        by_cases h : (b :: t).length < 512
        · rw [if_pos h, if_pos h]
        · simp only [h, if_false]
          have hd : ((b :: t).drop 512).length ≤ f := by
            simp only [List.length_drop]
            omega
          have hd2 : ((b :: t).drop 512).length ≤ g := by
            simp only [List.length_drop]
            omega
          rw [ih g ((b :: t).drop 512) hd hd2]

/-- Reassembly peels a leading 512-byte block. -/
theorem reblock_block (b rest : List Nat) (hb : b.length = 512) :
    reblock (b ++ rest) = (reblock rest).map (b :: ·) := by
  cases b with
  | nil => simp at hb
  | cons c t =>
    unfold reblock
    have hlen : ((c :: t) ++ rest).length = 512 + rest.length := by
      simp [List.length_append, hb.symm]
      omega
    rw [hlen]
    have h512 : 512 + rest.length = (511 + rest.length) + 1 := by omega
    rw [h512]
    show reblockAux ((511 + rest.length) + 1) (c :: (t ++ rest)) = _
    simp only [reblockAux]
    have hnl : ¬ (c :: (t ++ rest)).length < 512 := by
      have : (c :: (t ++ rest)).length = 512 + rest.length := by
        simpa using hlen
      omega
    simp only [hnl, if_false]
    have hdrop : (c :: (t ++ rest)).drop 512 = rest := by
      have : (c :: (t ++ rest)) = (c :: t) ++ rest := rfl
      rw [this, ← hb, List.drop_left]
    have htake : (c :: (t ++ rest)).take 512 = c :: t := by
      have : (c :: (t ++ rest)) = (c :: t) ++ rest := rfl
      rw [this, ← hb, List.take_left]
    rw [hdrop, htake,
      reblockAux_fuel_congr (511 + rest.length) rest.length rest (by omega) (le_refl _)]

/-- The trailer trim on exactly two content blocks followed by the two
all-zero terminator blocks. -/
theorem trimTrailer_pair (b1 b2 : List Nat) :
    trimTrailer [b1, b2, List.replicate 512 0, List.replicate 512 0] =
      Except.ok [b1, b2] := by
  have hz : (List.replicate 512 (0 : Nat)).all (· = 0) = true := by
    simp [List.all_eq_true, List.mem_replicate]
  simp [trimTrailer, hz]

/-- C1: the claimed universal round trip fails on the code.  Encoding a
single file of size 512 (a nonzero multiple of the block size) and decoding
the output yields the right pathname and size but an empty body - the
decoder truncates the final block to `size mod 512 = 0` bytes instead of
keeping all 512 - so the decoded body is not byte-identical to the input
body. -/
theorem c1_roundtrip_fails_on_block_multiple :
    roundTrip 0 1 [Chunk.file "a" (some 512) false [List.replicate 512 55] none] =
      some (Except.ok [⟨"a", some 512, "0", some []⟩]) ∧
    some ([] : List Nat) ≠ some (List.replicate 512 55) := by
  constructor
  · have htg : tarGen 0 1 [Chunk.file "a" (some 512) false [List.replicate 512 55] none] =
        some (Except.ok [c1Header, List.replicate 512 55, List.replicate 1024 0]) := rfl
    have hz : List.replicate 1024 (0 : Nat) = List.replicate 512 0 ++ List.replicate 512 0 := by
      rw [← List.replicate_add]
    simp only [roundTrip, tarBytes, htg, Option.map_some', Except.map, List.flatten,
      Except.bind, List.append_nil, hz]
    have hrb : reblock (c1Header ++ (List.replicate 512 55 ++
        (List.replicate 512 0 ++ List.replicate 512 0))) =
        some [c1Header, List.replicate 512 55, List.replicate 512 0, List.replicate 512 0] := by
      rw [reblock_block _ _ (show c1Header.length = 512 from rfl)]
      rw [reblock_block _ _ (by simp)]
      rw [reblock_block _ _ (by simp)]
      have hsingle : reblock (List.replicate 512 (0 : Nat)) = some [List.replicate 512 0] := rfl
      rw [hsingle]
      rfl
    simp only [unTarPipeline, hrb, trimTrailer_pair]
    have hfinal : untarBlocks [c1Header, List.replicate 512 55] =
        Except.ok [⟨"a", some 512, "0", some []⟩] := rfl
    rw [hfinal]
  · simp

/-- C2: the decoder's body sub-stream for a declared size of 512 reads its
single block but truncates it to `512 mod 512 = 0` bytes, delivering 0 bytes
instead of the claimed 512. -/
theorem c2_final_block_truncated_to_zero :
    readBody 512 (blocksFor (some 512)) [List.replicate 512 7] = Except.ok ([], []) ∧
    ([] : List Nat).length ≠ 512 := ⟨rfl, by decide⟩

/-- C3: on the claim's own 150-byte-prefix / 90-byte-name pathname, the
splitter's backward scan never terminates (it re-finds the same slash on
every iteration), so no fuel makes `parsePathname` return the claimed
split. -/
theorem c3_splitter_diverges_on_splittable_path :
    ∀ fuel, parsePathname fuel longPathA false = none := by
  intro fuel
  have h1 : parsePathname fuel longPathA false =
      (ppLoop (utf8Encode (normalizePathname longPathA false)) fuel 150).map
        (ppFinish (utf8Encode (normalizePathname longPathA false))) := rfl
  rw [h1]
  have h2 : ∀ f, ppLoop (utf8Encode (normalizePathname longPathA false)) f 150 = none := by
    intro f
    induction f with
    | zero => rfl
    | succ g ih => exact ih
  rw [h2 fuel]
  rfl

/-- C9: the backward scan does not terminate for every over-100-byte
pathname: on a 171-byte pathname with a slash at byte 120 the loop revisits
index 120 forever, so `parsePathname` exhausts any amount of fuel. -/
theorem c9_splitter_scan_nonterminating :
    ∀ fuel, parsePathname fuel longPathB false = none := by
  intro fuel
  have h1 : parsePathname fuel longPathB false =
      (ppLoop (utf8Encode (normalizePathname longPathB false)) fuel 120).map
        (ppFinish (utf8Encode (normalizePathname longPathB false))) := rfl
  rw [h1]
  have h2 : ∀ f, ppLoop (utf8Encode (normalizePathname longPathB false)) f 120 = none := by
    intro f
    induction f with
    | zero => rfl
    | succ g ih => exact ih
  rw [h2 fuel]
  rfl

/-- C4 counterexample: the claim says size `8 ^ 11` with the extension unset
is rejected, but the encoder's test accepts it (the code rejects only sizes
strictly above the bound). -/
theorem c4_counterexample_pow11_accepted :
    invalidSize (some ((8 : Int) ^ 11)) false = false := by decide

/-- C4 amended: the encoder accepts a numeric size exactly when
`0 ≤ size ≤ 8 ^ (12 if sizeExtension else 11)` (the bound itself is
accepted), and rejects NaN. -/
theorem c4_size_validation_inclusive_bound :
    ∀ (s : Int) (ext : Bool),
      (invalidSize (some s) ext = false ↔
        0 ≤ s ∧ s ≤ (8 : Int) ^ (if ext then 12 else 11)) ∧
      invalidSize none ext = true := by
  intro s ext
  refine ⟨?_, by cases ext <;> rfl⟩
  cases ext <;>
    simp only [invalidSize, jsLtNum, Bool.or_eq_false_iff, decide_eq_false_iff_not,
      beq_iff_eq, if_true, if_false, Bool.and_eq_false_iff] <;>
    norm_num

/-- C5: `validTarStreamOptions` is inverted, so the encoder rejects an
options bag whose single field `mode = "755"` matches the claimed octal
pattern: the run fails fast with InvalidOptions instead of accepting it. -/
theorem c5_valid_octal_mode_rejected :
    ("755" : String).data.all isOctDigitCh = true ∧
    validTarStreamOptions { mode := some "755" } = false ∧
    tarGen 0 1 [Chunk.dir "d" (some { mode := some "755" })] =
      some (Except.error TarErr.invalidOptions) := ⟨by decide, rfl, rfl⟩

/-- C6 counterexample: with no options bag at all, the mode field of an
emitted file header holds octal 644 (bytes of "000644 NUL"), not the
claimed octal 0. -/
theorem c6_counterexample_mode_defaults_644 :
    ((firstHeader (tarGen 0 1 [Chunk.file "a" (some 0) false [] none])).drop 100).take 8 =
      [48, 48, 48, 54, 52, 52, 32, 0] ∧
    [48, 48, 48, 54, 52, 52, 32, 0] ≠ [48, 48, 48, 48, 48, 48, 32, 0] := ⟨rfl, by decide⟩

end Rchv

namespace Rchv

/-! ## Decoder exclusivity (the busy-flag discipline of `UnTarStream`) -/

/-- Abstract decoder state: the remaining reassembled blocks, whether the
shared `header` slot is occupied (`header != undefined` in the source), how
many entry body streams have been handed out and not yet closed, and the
open body's remaining block count (the source's counter `i`). -/
structure DecState where
  blocks : List (List Nat)
  hdrBusy : Bool
  openBodies : Nat
  bodyRem : Nat
  deriving DecidableEq, Repr

/-- Initial decoder state over a block list: header slot free, no body
stream handed out. -/
def initDec (blocks : List (List Nat)) : DecState :=
  { blocks := blocks, hdrBusy := false, openBodies := 0, bodyRem := 0 }

/-- One observable step of the decoder.  The outer pull (which reads and
parses a header block and may materialize an entry) is enabled only when
the header slot is free - the source's `while (header != undefined)` poll
before `reader.read()`.  A regular-file header occupies the slot and opens
a body sub-stream whose pulls consume blocks; its final pull closes it and
frees the slot, and a cancel drains the remaining blocks before freeing
the slot.  Any other typeflag emits the entry and frees the slot at once. -/
inductive DecStep : DecState → DecState → Prop
  | pullFile (s : DecState) (h : List Nat) (rest : List (List Nat))
      (hfree : s.hdrBusy = false) (hblk : s.blocks = h :: rest)
      (hck : checksumOk h = true) (htf : (parseHeaderBlock h).typeflag = "0") :
      DecStep s { blocks := rest, hdrBusy := true,
                  openBodies := s.openBodies + 1,
                  bodyRem := blocksFor (parseHeaderBlock h).size }
  | pullOther (s : DecState) (h : List Nat) (rest : List (List Nat))
      (hfree : s.hdrBusy = false) (hblk : s.blocks = h :: rest)
      (hck : checksumOk h = true) (htf : (parseHeaderBlock h).typeflag ≠ "0") :
      DecStep s { s with blocks := rest }
  | bodyRead (s : DecState) (b : List Nat) (rest : List (List Nat))
      (hbusy : s.hdrBusy = true) (hrem : 0 < s.bodyRem) (hblk : s.blocks = b :: rest) :
      DecStep s { s with blocks := rest, bodyRem := s.bodyRem - 1 }
  | bodyClose (s : DecState) (hbusy : s.hdrBusy = true) (hrem : s.bodyRem = 0) :
      DecStep s { s with hdrBusy := false, openBodies := s.openBodies - 1 }
  | bodyCancel (s : DecState) (hbusy : s.hdrBusy = true) :
      DecStep s { blocks := s.blocks.drop s.bodyRem, hdrBusy := false,
                  openBodies := s.openBodies - 1, bodyRem := 0 }

/-- States reachable from the initial state of a decoding run. -/
inductive DecReach (blocks : List (List Nat)) : DecState → Prop
  | init : DecReach blocks (initDec blocks)
  | step (t u : DecState) : DecReach blocks t → DecStep t u → DecReach blocks u

/-- C8: at every reachable point of a decoding run at most one entry body
stream is open, and whenever the header slot is free (the only condition
under which the outer pull can read the next header and materialize the
next entry) no body stream is open at all: the decoder never parses the
next header until the previous entry's body sub-stream has been fully
consumed or cancelled. -/
theorem c8_at_most_one_open_body (blocks : List (List Nat)) (s : DecState)
    (h : DecReach blocks s) :
    s.openBodies ≤ 1 ∧ (s.hdrBusy = false → s.openBodies = 0) := by
  induction h with
  | init => exact ⟨Nat.zero_le 1, fun _ => rfl⟩
  | step t u ht hs ih =>
    obtain ⟨ih1, ih2⟩ := ih
    cases hs with
    | pullFile h rest hfree hblk hck htf =>
      have h0 := ih2 hfree
      refine ⟨?_, ?_⟩
      · show t.openBodies + 1 ≤ 1
        omega
      · intro hb
        exact absurd hb (by simp)
    | pullOther h rest hfree hblk hck htf => exact ⟨ih1, ih2⟩
    | bodyRead b rest hbusy hrem hblk => exact ⟨ih1, ih2⟩
    | bodyClose hbusy hrem =>
      refine ⟨?_, fun _ => ?_⟩
      · show t.openBodies - 1 ≤ 1
        omega
      · show t.openBodies - 1 = 0
        omega
    | bodyCancel hbusy =>
      refine ⟨?_, fun _ => ?_⟩
      · show t.openBodies - 1 ≤ 1
        omega
      · show t.openBodies - 1 = 0
        omega

/-- Witness for C8 at a concrete reachable state. -/
theorem c8_at_most_one_open_body_witness :
    (initDec []).openBodies ≤ 1 ∧
    ((initDec []).hdrBusy = false → (initDec []).openBodies = 0) :=
  c8_at_most_one_open_body [] (initDec []) DecReach.init

/-! ## Encoder determinism under a pinned mtime -/

/-- When the options pin mtime, the encoded field string is independent of
the clock. -/
theorem headerFieldStr_clock_indep (opts : Option POpts) (m : Int)
    (h : opts.bind POpts.mtime = some m) (now now' : Int) :
    ∀ (tf : Char) (isF : Bool) (sz : Int) (ext : Bool),
      headerFieldStr opts tf isF sz ext now = headerFieldStr opts tf isF sz ext now' := by
  intro tf isF sz ext
  simp [headerFieldStr, mtimeFieldStr, resolveMtime, h]

/-- When the options pin mtime, the emitted header block is independent of
the clock. -/
theorem encodeHeader_clock_indep (opts : Option POpts) (m : Int)
    (h : opts.bind POpts.mtime = some m) (now now' : Int) :
    ∀ (nameB pfx : List Nat) (tf : Char) (isF : Bool) (sz : Int) (ext : Bool),
      encodeHeader nameB pfx opts tf isF sz ext now =
        encodeHeader nameB pfx opts tf isF sz ext now' := by
  intro nameB pfx tf isF sz ext
  unfold encodeHeader
  rw [headerFieldStr_clock_indep opts m h now now' tf isF sz ext]

/-- C10: when every descriptor's options bag supplies mtime, the encoder's
output is independent of the clock: two runs over equal inputs with
different clock values produce identical results (the same chunks or the
same error), the clock being consulted only for the mtime default. -/
theorem c10_encoder_deterministic_with_pinned_mtime (now now' : Int) (fuel : Nat)
    (inputs : List Chunk)
    (hm : ∀ c ∈ inputs, ((Chunk.options c).bind POpts.mtime).isSome) :
    tarGen now fuel inputs = tarGen now' fuel inputs := by
  have main : ∀ (l : List Chunk), (∀ c ∈ l, ((Chunk.options c).bind POpts.mtime).isSome) →
      ∀ paths, goTar now fuel paths l = goTar now' fuel paths l := by
    intro l
    induction l with
    | nil => intro _ paths; rfl
    | cons c rest ih =>
      intro hml paths
      have hc := hml c (List.mem_cons_self c rest)
      obtain ⟨m, hm2⟩ := Option.isSome_iff_exists.mp hc
      have ihr := ih fun x hx => hml x (List.mem_cons_of_mem c hx)
      simp only [goTar]
      simp only [headerFieldStr_clock_indep c.options m hm2 now now',
        encodeHeader_clock_indep c.options m hm2 now now', ihr]
  exact main inputs hm []

/-- Witness for C10: a directory whose options pin mtime encodes the same
under two different clocks. -/
theorem c10_witness :
    tarGen 0 0 [Chunk.dir "d" (some { mtime := some 5 })] =
      tarGen 99 0 [Chunk.dir "d" (some { mtime := some 5 })] :=
  c10_encoder_deterministic_with_pinned_mtime 0 99 0
    [Chunk.dir "d" (some { mtime := some 5 })]
    (by intro c hc; simp at hc; subst hc; rfl)

end Rchv

namespace Rchv

/-! ## List and byte-writing lemmas -/

/-- `jsSet` never changes the length of the target buffer. -/
theorem jsSet_length (a src : List Nat) (off : Nat) : (jsSet a src off).length = a.length := by
  simp only [jsSet, List.length_append, List.length_take, List.length_drop]
  omega

/-- An in-bounds `jsSet` is splice-in-the-middle. -/
theorem jsSet_eq_of_le (a src : List Nat) (off : Nat) (h : off + src.length ≤ a.length) :
    jsSet a src off = a.take off ++ src ++ a.drop (off + src.length) := by
  have hsrc : src.take (a.length - off) = src := List.take_of_length_le (by omega)
  simp only [jsSet, hsrc]

/-- Sum of a list after a single in-bounds update. -/
theorem sum_set_getD : ∀ (l : List Nat) (p v : Nat), p < l.length →
    (l.set p v).sum + l.getD p 0 = l.sum + v := by
  intro l
  induction l with
  | nil => intro p v h; simp at h
  | cons a t ih =>
    intro p v h
    cases p with
    | zero => simp [List.sum_cons]; omega
    | succ q =>
      have hq : q < t.length := by simpa using h
      have := ih q v hq
      simp only [List.set_cons_succ, List.sum_cons, List.getD_cons_succ]
      omega

/-- `take` past an update keeps the update; `take` before it forgets it. -/
theorem take_set : ∀ (l : List Nat) (n m : Nat) (v : Nat),
    (l.set m v).take n = if m < n then (l.take n).set m v else l.take n := by
  intro l
  induction l with
  | nil => intro n m v; simp
  | cons a t ih =>
    intro n m v
    cases m with
    | zero =>
      cases n with
      | zero => simp
      | succ n2 => simp
    | succ q =>
      cases n with
      | zero => simp
      | succ n2 =>
        simp only [List.set_cons_succ, List.take_succ_cons]
        rw [ih n2 q v]
        by_cases h : q < n2
        · rw [if_pos h, if_pos (show q + 1 < n2 + 1 by omega)]
        · rw [if_neg h, if_neg (show ¬ q + 1 < n2 + 1 by omega)]

/-- `getD` inside the prefix kept by `take`. -/
theorem getD_take (l : List Nat) (n p : Nat) (h : p < n) :
    (l.take n).getD p 0 = l.getD p 0 := by
  simp [List.getD_eq_getElem?_getD, List.getElem?_take, h]

/-- `getD` through `drop`. -/
theorem getD_drop (l : List Nat) (n p : Nat) :
    (l.drop n).getD p 0 = l.getD (n + p) 0 := by
  simp [List.getD_eq_getElem?_getD, List.getElem?_drop]

/-- Splitting a list at two cut points. -/
theorem take_mid_drop (l : List Nat) (a b : Nat) :
    l.take a ++ ((l.drop a).take b ++ l.drop (a + b)) = l := by
  have h1 : (l.drop a).drop b = l.drop (a + b) := by
    rw [List.drop_drop]
  rw [← h1, List.take_append_drop, List.take_append_drop]

end Rchv

namespace Rchv

/-! ## UTF-8 and octal-text lemmas -/

/-- Every character scalar value is below 0x110000. -/
theorem char_toNat_lt (c : Char) : c.toNat < 1114112 := by
  rcases c.valid with h | h
  · exact lt_trans h (by norm_num)
  · exact h.2

/-- ASCII characters encode to their own single byte. -/
theorem utf8EncodeChar_ascii (c : Char) (h : c.toNat < 128) : utf8EncodeChar c = [c.toNat] := by
  simp [utf8EncodeChar, h]

/-- Encoding an all-ASCII character list is the list of scalar values. -/
theorem utf8Encode_data_ascii : ∀ (cs : List Char), (∀ c ∈ cs, c.toNat < 128) →
    (cs.map utf8EncodeChar).flatten = cs.map Char.toNat := by
  intro cs
  induction cs with
  | nil => intro _; rfl
  | cons c t ih =>
    intro h
    simp only [List.map_cons, List.flatten_cons,
      ih (fun x hx => h x (List.mem_cons_of_mem c hx)),
      utf8EncodeChar_ascii c (h c (List.mem_cons_self c t))]
    rfl

/-- Encoding an all-ASCII string is the list of its scalar values. -/
theorem utf8Encode_ascii (s : String) (h : ∀ c ∈ s.data, c.toNat < 128) :
    utf8Encode s = s.data.map Char.toNat := utf8Encode_data_ascii s.data h

/-- `TextEncoder` distributes over string concatenation. -/
theorem utf8Encode_append (s t : String) :
    utf8Encode (s ++ t) = utf8Encode s ++ utf8Encode t := by
  simp [utf8Encode, String.data_append]

/-- Every byte the encoder produces fits in one byte. -/
theorem utf8EncodeChar_le (c : Char) : ∀ b ∈ utf8EncodeChar c, b ≤ 255 := by
  intro b hb
  have hc : c.toNat < 1114112 := char_toNat_lt c
  by_cases h1 : c.toNat < 128
  · simp [utf8EncodeChar, h1] at hb
    omega
  · by_cases h2 : c.toNat < 2048
    · simp [utf8EncodeChar, h1, h2] at hb
      rcases hb with hb | hb <;> omega
    · by_cases h3 : c.toNat < 65536
      · simp [utf8EncodeChar, h1, h2, h3] at hb
        rcases hb with hb | hb | hb <;> omega
      · simp [utf8EncodeChar, h1, h2, h3] at hb
        rcases hb with hb | hb | hb | hb <;> omega

/-- Every byte of an encoded string fits in one byte. -/
theorem utf8Encode_le (s : String) : ∀ b ∈ utf8Encode s, b ≤ 255 := by
  intro b hb
  simp only [utf8Encode, List.mem_flatten] at hb
  obtain ⟨l, hl, hbl⟩ := hb
  simp only [List.mem_map] at hl
  obtain ⟨c, _, rfl⟩ := hl
  exact utf8EncodeChar_le c b hbl

/-- Decoding all-ASCII bytes gives one character per byte. -/
theorem utf8DecodeAux_ascii : ∀ (f : Nat) (l : List Nat), l.length ≤ f →
    (∀ b ∈ l, b < 128) → utf8DecodeAux f l = l.map Char.ofNat := by
  intro f
  induction f with
  | zero =>
    intro l hf _
    have hl : l = [] := List.eq_nil_of_length_eq_zero (by omega)
    subst hl
    rfl
  | succ f ih =>
    intro l hf hb
    cases l with
    | nil => rfl
    | cons b t =>
      have hb0 : b < 128 := hb b (List.mem_cons_self b t)
      simp only [utf8DecodeAux, utf8DecodeStep, if_pos hb0, List.drop_zero]
      rw [ih t (by simpa using hf) (fun x hx => hb x (List.mem_cons_of_mem b hx))]
      rfl

/-- Decoding all-ASCII bytes gives one character per byte. -/
theorem utf8Decode_ascii (l : List Nat) (h : ∀ b ∈ l, b < 128) :
    utf8Decode l = l.map Char.ofNat := utf8DecodeAux_ascii l.length l (le_refl _) h

/-- Scalar value of an octal digit character. -/
theorem octDigitChar_toNat (n : Nat) (h : n < 8) : (octDigitChar n).toNat = 48 + n := by
  unfold octDigitChar
  interval_cases n <;> decide

/-- The octal digit run of a natural number is nonempty and all digits. -/
theorem octCharsAux_digits : ∀ (f n : Nat), n < f →
    octCharsAux f n ≠ [] ∧ ∀ c ∈ octCharsAux f n, 48 ≤ c.toNat ∧ c.toNat ≤ 55 := by
  intro f
  induction f with
  | zero => intro n h; exact absurd h (Nat.not_lt_zero n)
  | succ f ih =>
    intro n h
    by_cases h8 : n < 8
    · refine ⟨by simp [octCharsAux, h8], ?_⟩
      intro c hc
      simp [octCharsAux, h8] at hc
      subst hc
      rw [octDigitChar_toNat n h8]
      omega
    · have hn8 : n / 8 < f := by omega
      obtain ⟨hne, hdig⟩ := ih (n / 8) hn8
      refine ⟨by simp [octCharsAux, h8], ?_⟩
      intro c hc
      simp only [octCharsAux, if_neg h8, List.mem_append, List.mem_singleton] at hc
      rcases hc with hc | hc
      · exact hdig c hc
      · subst hc
        rw [octDigitChar_toNat (n % 8) (by omega)]
        omega

/-- Folding the octal digits of `n` over the base-8 accumulator recovers `n`. -/
theorem octCharsAux_val : ∀ (f n : Nat), n < f → ∀ (a : Nat),
    (octCharsAux f n).foldl (fun acc c => 8 * acc + (c.toNat - 48)) a =
      a * 8 ^ (octCharsAux f n).length + n := by
  intro f
  induction f with
  | zero => intro n h; exact absurd h (Nat.not_lt_zero n)
  | succ f ih =>
    intro n h a
    by_cases h8 : n < 8
    · simp only [octCharsAux, if_pos h8, List.foldl_cons, List.foldl_nil,
        List.length_singleton, pow_one, octDigitChar_toNat n h8]
      omega
    · have hn8 : n / 8 < f := by omega
      simp only [octCharsAux, if_neg h8, List.foldl_append, List.foldl_cons, List.foldl_nil,
        List.length_append, List.length_singleton]
      rw [ih (n / 8) hn8 a, octDigitChar_toNat (n % 8) (by omega)]
      have hmod : 48 + n % 8 - 48 = n % 8 := by omega
      rw [hmod, pow_succ]
      have := Nat.div_add_mod n 8
      ring_nf
      omega

/-- Digit-count bound for the octal print. -/
theorem octCharsAux_len_le : ∀ (f n k : Nat), n < f → n < 8 ^ k → 1 ≤ k →
    (octCharsAux f n).length ≤ k := by
  intro f
  induction f with
  | zero => intro n k h; exact absurd h (Nat.not_lt_zero n)
  | succ f ih =>
    intro n k h hk h1
    by_cases h8 : n < 8
    · simp [octCharsAux, h8]
      omega
    · cases k with
      | zero => omega
      | succ k2 =>
        have hk2 : 1 ≤ k2 := by
          by_contra hc
          have : k2 = 0 := by omega
          subst this
          simp [pow_one] at hk
          omega
        have hdiv : n / 8 < 8 ^ k2 := by
          rw [Nat.div_lt_iff_lt_mul (by norm_num)]
          calc n < 8 ^ (k2 + 1) := hk
          _ = 8 ^ k2 * 8 := by rw [pow_succ]
        have := ih (n / 8) k2 (by omega) hdiv hk2
        simp only [octCharsAux, if_neg h8, List.length_append, List.length_singleton]
        omega

end Rchv

namespace Rchv

/-! ## Octal print / parse round trip -/

/-- Leading zero characters do not change the accumulated octal value. -/
theorem foldl_zero_replicate : ∀ (k : Nat),
    (List.replicate k '0').foldl (fun a c => 8 * a + (c.toNat - 48)) 0 = 0 := by
  intro k
  induction k with
  | zero => rfl
  | succ k ih =>
    rw [List.replicate_succ, List.foldl_cons]
    have h0 : 8 * 0 + ('0'.toNat - 48) = 0 := by decide
    rw [h0]
    exact ih

/-- The zero-padded six-character octal print of a sum below `8 ^ 6` parses
back (via the decoder's `parseInt(s, 8)`) to the same value. -/
theorem jsParseIntOct_padStart_oct (n : Nat) :
    jsParseIntOct (padStartStr (octString n) 6 '0') = some (n : Int) := by
  obtain ⟨hne, hdig⟩ := octCharsAux_digits (n + 1) n (Nat.lt_succ_self n)
  have hall : ∀ c ∈ List.replicate (6 - (octCharsAux (n + 1) n).length) '0' ++
      octCharsAux (n + 1) n, 48 ≤ c.toNat ∧ c.toNat ≤ 55 := by
    intro c hc
    rcases List.mem_append.mp hc with hc | hc
    · rw [List.eq_of_mem_replicate hc]
      exact ⟨by decide, by decide⟩
    · exact hdig c hc
  have hdata : (padStartStr (octString n) 6 '0').data =
      List.replicate (6 - (octCharsAux (n + 1) n).length) '0' ++ octCharsAux (n + 1) n := rfl
  have hnonempty : List.replicate (6 - (octCharsAux (n + 1) n).length) '0' ++
      octCharsAux (n + 1) n ≠ [] := by
    intro hcontra
    exact hne (List.append_eq_nil.mp hcontra).2
  obtain ⟨c, t, hct⟩ : ∃ c t, List.replicate (6 - (octCharsAux (n + 1) n).length) '0' ++
      octCharsAux (n + 1) n = c :: t := by
    cases hl : List.replicate (6 - (octCharsAux (n + 1) n).length) '0' ++
        octCharsAux (n + 1) n with
    | nil => exact absurd hl hnonempty
    | cons c t => exact ⟨c, t, rfl⟩
  have hc0 : 48 ≤ c.toNat ∧ c.toNat ≤ 55 := hall c (hct ▸ List.mem_cons_self c t)
  have hnospace : isJsSpaceCh c = false := by
    simp only [isJsSpaceCh, Bool.or_eq_false_iff, decide_eq_false_iff_not]
    refine ⟨⟨⟨⟨⟨⟨?_, ?_⟩, ?_⟩, ?_⟩, ?_⟩, ?_⟩, ?_⟩
    · intro h; rw [h] at hc0; exact absurd hc0.1 (by decide)
    · intro h; rw [h] at hc0; exact absurd hc0.1 (by decide)
    · intro h; rw [h] at hc0; exact absurd hc0.1 (by decide)
    · intro h; rw [h] at hc0; exact absurd hc0.1 (by decide)
    · omega
    · omega
    · omega
  have hcm : ¬ c = '-' := by
    intro h; rw [h] at hc0; exact absurd hc0.1 (by decide)
  have hcp : ¬ c = '+' := by
    intro h; rw [h] at hc0; exact absurd hc0.1 (by decide)
  have htw : (List.replicate (6 - (octCharsAux (n + 1) n).length) '0' ++
      octCharsAux (n + 1) n).takeWhile isOctDigitCh =
      List.replicate (6 - (octCharsAux (n + 1) n).length) '0' ++ octCharsAux (n + 1) n := by
    rw [List.takeWhile_eq_self_iff]
    intro x hx
    have hx2 := hall x hx
    simp only [isOctDigitCh, Bool.and_eq_true, decide_eq_true_eq]
    omega
  have hv : (List.replicate (6 - (octCharsAux (n + 1) n).length) '0' ++
      octCharsAux (n + 1) n).foldl (fun a c => 8 * a + (c.toNat - 48)) 0 = n := by
    rw [List.foldl_append, foldl_zero_replicate,
      octCharsAux_val (n + 1) n (Nat.lt_succ_self n) 0]
    simp
  simp only [jsParseIntOct, hdata, hct, List.dropWhile_cons, hnospace]
  simp only [Bool.false_eq_true, if_false]
  rw [if_neg hcm, if_neg hcp, ← hct]
  simp only [parseOctDigits, htw]
  have hTne : (List.replicate (6 - (octCharsAux (n + 1) n).length) '0' ++
      octCharsAux (n + 1) n).isEmpty = false := by
    rw [hct]
    rfl
  simp only [hTne, Bool.false_eq_true, if_false, hv]
  rfl

/-- The padded octal print of a value below `8 ^ 6` is six characters. -/
theorem padStart_oct6_len (n : Nat) (hn : n < 262144) :
    (padStartStr (octString n) 6 '0').data.length = 6 := by
  have hlen := octCharsAux_len_le (n + 1) n 6 (Nat.lt_succ_self n)
    (hn.trans_le (by norm_num)) (by norm_num)
  simp only [padStartStr, octString, List.length_append, List.length_replicate]
  omega

/-- Every character of the padded octal print is ASCII. -/
theorem padStart_oct6_ascii (n : Nat) :
    ∀ c ∈ (padStartStr (octString n) 6 '0').data, c.toNat < 128 := by
  obtain ⟨_, hdig⟩ := octCharsAux_digits (n + 1) n (Nat.lt_succ_self n)
  intro c hc
  rcases List.mem_append.mp hc with hc | hc
  · rw [List.eq_of_mem_replicate hc]
    decide
  · exact lt_of_le_of_lt (hdig c hc).2 (by norm_num)

end Rchv

namespace Rchv

set_option maxRecDepth 100000

/-! ## Header block layout -/

/-- The encoder's three `set` writes produce an explicit concatenation:
name, zero padding to 100, the 245-byte field string, the prefix, and zero
padding to 512. -/
theorem headerPre_layout (nameB field pfx : List Nat)
    (hn : nameB.length ≤ 100) (hf : field.length = 245) (hp : pfx.length ≤ 155) :
    jsSet (jsSet (jsSet (List.replicate 512 0) nameB 0) field 100) pfx 345 =
      nameB ++ (List.replicate (100 - nameB.length) 0 ++ (field ++
        (pfx ++ List.replicate (167 - pfx.length) 0))) := by
  have h1 : jsSet (List.replicate 512 0) nameB 0 =
      nameB ++ List.replicate (512 - nameB.length) 0 := by
    rw [jsSet_eq_of_le _ _ _ (by rw [List.length_replicate]; omega)]
    simp only [List.take_zero, List.nil_append, Nat.zero_add, List.drop_replicate]
  have h2 : jsSet (nameB ++ List.replicate (512 - nameB.length) 0) field 100 =
      (nameB ++ List.replicate (100 - nameB.length) 0) ++ field ++ List.replicate 167 0 := by
    rw [jsSet_eq_of_le _ _ _
      (by simp only [List.length_append, List.length_replicate, hf]; omega)]
    rw [hf]
    have ht : (nameB ++ List.replicate (512 - nameB.length) 0).take 100 =
        nameB ++ List.replicate (100 - nameB.length) 0 := by
      rw [List.take_append_eq_append_take, List.take_of_length_le hn, List.take_replicate]
      have hmin : min (100 - nameB.length) (512 - nameB.length) = 100 - nameB.length := by
        omega
      rw [hmin]
    have hd : (nameB ++ List.replicate (512 - nameB.length) 0).drop 345 =
        List.replicate 167 0 := by
      rw [List.drop_append_eq_append_drop, List.drop_eq_nil_of_le (by omega),
        List.drop_replicate]
      have harith : 512 - nameB.length - (345 - nameB.length) = 167 := by omega
      rw [harith]
      rfl
    rw [ht, hd]
  have hlen345 : ((nameB ++ List.replicate (100 - nameB.length) 0) ++ field).length = 345 := by
    simp only [List.length_append, List.length_replicate, hf]
    omega
  have h3 : jsSet ((nameB ++ List.replicate (100 - nameB.length) 0) ++ field ++
      List.replicate 167 0) pfx 345 =
      ((nameB ++ List.replicate (100 - nameB.length) 0) ++ field) ++
        (pfx ++ List.replicate (167 - pfx.length) 0) := by
    rw [jsSet_eq_of_le _ _ _
      (by simp only [List.length_append, List.length_replicate, hf]; omega)]
    rw [List.take_left' hlen345]
    have hdrop : (((nameB ++ List.replicate (100 - nameB.length) 0) ++ field) ++
        List.replicate 167 0).drop (345 + pfx.length) = List.replicate (167 - pfx.length) 0 := by
      rw [List.drop_append_eq_append_drop, List.drop_eq_nil_of_le (by rw [hlen345]; omega),
        hlen345, List.drop_replicate]
      have harith : 167 - (345 + pfx.length - 345) = 167 - pfx.length := by omega
      rw [harith]
      rfl
    rw [hdrop]
    simp only [List.append_assoc, List.nil_append]
  rw [h1, h2, h3]
  simp only [List.append_assoc]

end Rchv

namespace Rchv

set_option maxRecDepth 100000

/-! ## Checksum write and validation -/

/-- Rebuilding a string from its own character list. -/
theorem strMk_data (s : String) : String.mk s.data = s := by
  cases s
  rfl

/-- Byte form of the checksum store: six octal digit bytes then a NUL. -/
theorem storeBytes_eq (m : Nat) :
    utf8Encode (padStartStr (octString m) 6 '0' ++ "\x00") =
      (padStartStr (octString m) 6 '0').data.map Char.toNat ++ [0] := by
  rw [utf8Encode_append, utf8Encode_ascii _ (padStart_oct6_ascii m)]
  rfl

/-- The checksum store is seven bytes when the sum fits six octal digits. -/
theorem storeBytes_len (m : Nat) (hm : m < 262144) :
    (utf8Encode (padStartStr (octString m) 6 '0' ++ "\x00")).length = 7 := by
  rw [storeBytes_eq]
  simp only [List.length_append, List.length_map, padStart_oct6_len m hm,
    List.length_singleton]

/-- The decoder's [148,156-2) slice on a 512-byte block. -/
theorem jsSliceBytes_148_154 (a : List Nat) (h : a.length = 512) :
    jsSliceBytes a 148 154 = (a.take 154).drop 148 := by
  simp only [jsSliceBytes, h]
  norm_num
  rfl

/-- The decoder's checksum validation accepts the block obtained by writing
the padded octal byte-sum (and a NUL) over offset 148 of a 512-byte block
whose checksum field holds eight spaces. -/
theorem checksumOk_of_spaces (pre : List Nat)
    (hlen : pre.length = 512) (hb : ∀ b ∈ pre, b ≤ 255)
    (hsp : (pre.drop 148).take 8 = List.replicate 8 32) :
    checksumOk (jsSet pre (utf8Encode (padStartStr (octString pre.sum) 6 '0' ++ "\x00")) 148)
      = true := by
  have hsum : pre.sum < 262144 := by
    have h1 := List.sum_le_card_nsmul pre 255 hb
    rw [hlen] at h1
    simp only [smul_eq_mul] at h1
    omega
  have hstoreLen := storeBytes_len pre.sum hsum
  have hset : jsSet pre (utf8Encode (padStartStr (octString pre.sum) 6 '0' ++ "\x00")) 148 =
      pre.take 148 ++ utf8Encode (padStartStr (octString pre.sum) 6 '0' ++ "\x00") ++
        pre.drop 155 := by
    rw [jsSet_eq_of_le _ _ _ (by rw [hstoreLen]; omega), hstoreLen]
  rw [hset]
  have hlenA : (pre.take 148).length = 148 := by
    rw [List.length_take]
    omega
  have hlenH : (pre.take 148 ++ utf8Encode (padStartStr (octString pre.sum) 6 '0' ++ "\x00") ++
      pre.drop 155).length = 512 := by
    simp only [List.length_append, hlenA, hstoreLen, List.length_drop, hlen]
  have hdigLen : ((padStartStr (octString pre.sum) 6 '0').data.map Char.toNat).length = 6 := by
    rw [List.length_map, padStart_oct6_len pre.sum hsum]
  have hslice : jsSliceBytes (pre.take 148 ++
      utf8Encode (padStartStr (octString pre.sum) 6 '0' ++ "\x00") ++ pre.drop 155) 148 154 =
      (padStartStr (octString pre.sum) 6 '0').data.map Char.toNat := by
    rw [jsSliceBytes_148_154 _ hlenH, List.append_assoc, List.take_append_eq_append_take,
      List.take_of_length_le (by rw [hlenA]; omega), hlenA]
    rw [List.drop_left' hlenA]
    have h6 : (154 : Nat) - 148 = 6 := by norm_num
    rw [h6, storeBytes_eq, List.append_assoc,
      List.take_append_of_le_length (le_of_eq hdigLen.symm),
      List.take_of_length_le (le_of_eq hdigLen)]
  have hparse : jsParseIntOct (decodeSlice (pre.take 148 ++
      utf8Encode (padStartStr (octString pre.sum) 6 '0' ++ "\x00") ++ pre.drop 155) 148 154) =
      some (pre.sum : Int) := by
    unfold decodeSlice
    rw [hslice]
    rw [utf8Decode_ascii _ (by
      intro b hb2
      simp only [List.mem_map] at hb2
      obtain ⟨c, hc, rfl⟩ := hb2
      exact padStart_oct6_ascii pre.sum c hc)]
    rw [List.map_map]
    have hid : (padStartStr (octString pre.sum) 6 '0').data.map (Char.ofNat ∘ Char.toNat) =
        (padStartStr (octString pre.sum) 6 '0').data := by
      apply List.map_congr_left ?_ |>.trans (List.map_id _)
      intro c _
      exact Char.ofNat_toNat c
    rw [hid, strMk_data]
    exact jsParseIntOct_padStart_oct pre.sum
  have hspaced : jsSet (pre.take 148 ++
      utf8Encode (padStartStr (octString pre.sum) 6 '0' ++ "\x00") ++ pre.drop 155)
      (List.replicate 8 32) 148 = pre := by
    rw [jsSet_eq_of_le _ _ _ (by rw [hlenH, List.length_replicate]; omega),
      List.length_replicate]
    have hA : (pre.take 148 ++ utf8Encode (padStartStr (octString pre.sum) 6 '0' ++ "\x00") ++
        pre.drop 155).take 148 = pre.take 148 := by
      rw [List.append_assoc, List.take_append_of_le_length (by rw [hlenA]),
        List.take_take]
      norm_num
    have hB : (pre.take 148 ++ utf8Encode (padStartStr (octString pre.sum) 6 '0' ++ "\x00") ++
        pre.drop 155).drop (148 + 8) = pre.drop 156 := by
      rw [List.append_assoc, List.drop_append_eq_append_drop,
        List.drop_eq_nil_of_le (by rw [hlenA]; omega), hlenA, List.nil_append,
        List.drop_append_eq_append_drop, List.drop_eq_nil_of_le (by rw [hstoreLen]; omega),
        hstoreLen, List.nil_append, List.drop_drop]
    rw [hA, hB]
    have hmid := take_mid_drop pre 148 8
    rw [hsp] at hmid
    have h156 : (148 : Nat) + 8 = 156 := by norm_num
    rw [h156] at hmid
    rw [← List.append_assoc] at hmid
    exact hmid
  simp only [checksumOk, hparse, hspaced]
  simp

end Rchv

namespace Rchv

set_option maxRecDepth 100000

/-- Changing one byte outside the checksum field of a block that passes the
decoder's checksum validation makes the validation fail. -/
theorem checksumOk_flip (h : List Nat) (hlen : h.length = 512)
    (hok : checksumOk h = true) (p v : Nat) (hp : p < 512)
    (hout : p < 148 ∨ 156 ≤ p) (hv : v ≠ h.getD p 0) :
    checksumOk (h.set p v) = false := by
  have hl2 : (h.set p v).length = 512 := by
    rw [List.length_set]
    exact hlen
  have hsliceEq : jsSliceBytes (h.set p v) 148 154 = jsSliceBytes h 148 154 := by
    rw [jsSliceBytes_148_154 _ hl2, jsSliceBytes_148_154 _ hlen]
    rcases hout with hout | hout
    · rw [take_set, if_pos (by omega), List.drop_set, if_pos (by omega)]
    · rw [take_set, if_neg (by omega)]
  have hspacedEq : jsSet (h.set p v) (List.replicate 8 32) 148 =
      (jsSet h (List.replicate 8 32) 148).set p v := by
    rw [jsSet_eq_of_le _ _ _ (by rw [hl2, List.length_replicate]; omega),
      jsSet_eq_of_le _ _ _ (by rw [hlen, List.length_replicate]; omega),
      List.length_replicate]
    have hlenT : (h.take 148).length = 148 := by
      rw [List.length_take]
      omega
    rcases hout with hout | hout
    · rw [take_set, if_pos (by omega), List.drop_set, if_pos (by omega)]
      rw [List.set_append, if_pos (by
        rw [List.length_append, hlenT, List.length_replicate]
        omega)]
      rw [List.set_append, if_pos (by rw [hlenT]; omega)]
    · rw [take_set, if_neg (by omega), List.drop_set, if_neg (by omega)]
      rw [List.set_append, if_neg (by
        rw [List.length_append, hlenT, List.length_replicate]
        omega)]
      rw [List.length_append, hlenT, List.length_replicate]
  have hgetEq : (jsSet h (List.replicate 8 32) 148).getD p 0 = h.getD p 0 := by
    rw [jsSet_eq_of_le _ _ _ (by rw [hlen, List.length_replicate]; omega),
      List.length_replicate]
    have hlenT : (h.take 148).length = 148 := by
      rw [List.length_take]
      omega
    rcases hout with hout | hout
    · rw [List.append_assoc, List.getD_append _ _ _ _ (by rw [hlenT]; omega)]
      exact getD_take h 148 p (by omega)
    · rw [List.append_assoc, List.getD_append_right _ _ _ _ (by rw [hlenT]; omega), hlenT,
        List.getD_append_right _ _ _ _ (by rw [List.length_replicate]; omega),
        List.length_replicate]
      rw [getD_drop]
      have harith : 148 + 8 + (p - 148 - 8) = p := by omega
      rw [harith]
  have hslen : (jsSet h (List.replicate 8 32) 148).length = 512 := by
    rw [jsSet_length, hlen]
  have hsums := sum_set_getD (jsSet h (List.replicate 8 32) 148) p v (by rw [hslen]; omega)
  rw [hgetEq] at hsums
  simp only [checksumOk] at hok ⊢
  cases hparse : jsParseIntOct (decodeSlice h 148 154) with
  | none =>
    rw [hparse] at hok
    simp at hok
  | some nVal =>
    rw [hparse] at hok
    have hsumEq : ((jsSet h (List.replicate 8 32) 148).sum : Int) = nVal := by
      simpa using hok
    have hdec : decodeSlice (h.set p v) 148 154 = decodeSlice h 148 154 := by
      unfold decodeSlice
      rw [hsliceEq]
    rw [hdec, hparse, hspacedEq]
    have hne : ((jsSet h (List.replicate 8 32) 148).set p v).sum ≠
        (jsSet h (List.replicate 8 32) 148).sum := by
      intro hcontra
      rw [hcontra] at hsums
      apply hv
      omega
    simp only [beq_eq_false_iff_ne, ne_eq]
    intro hcontra
    apply hne
    have : (((jsSet h (List.replicate 8 32) 148).set p v).sum : Int) =
        ((jsSet h (List.replicate 8 32) 148).sum : Int) := by
      rw [hcontra, hsumEq]
    exact_mod_cast this

end Rchv

namespace Rchv

set_option maxRecDepth 100000

/-! ## Field string decomposition -/

/-- The encoded field string, split at its syntactic components. -/
theorem headerFieldStr_bytes (opts : Option POpts) (tf : Char) (isFile : Bool)
    (sz : Int) (ext : Bool) (now : Int) :
    utf8Encode (headerFieldStr opts tf isFile sz ext now) =
      utf8Encode (modeStr opts tf) ++ ([32, 0] ++ (utf8Encode (uidStr opts) ++ ([32, 0] ++
      (utf8Encode (gidStr opts) ++ ([32, 0] ++ (utf8Encode (sizeFieldStr isFile sz ext) ++
      (utf8Encode (mtimeFieldStr opts now) ++ (List.replicate 8 32 ++
      (utf8Encode (String.singleton tf) ++ (List.replicate 100 0 ++
      ([117, 115, 116, 97, 114, 0] ++ ([48, 48] ++ (utf8Encode (unameStr opts) ++
      (utf8Encode (gnameStr opts) ++ (utf8Encode (devmajorStr opts) ++
      utf8Encode (devminorStr opts)))))))))))))))) := by
  have hsp : utf8Encode " \x00" = [32, 0] := rfl
  have hsp8 : utf8Encode "        " = List.replicate 8 32 := rfl
  have hnul : utf8Encode nul100 = List.replicate 100 0 := rfl
  have hmag : utf8Encode "ustar\x00" = [117, 115, 116, 97, 114, 0] := rfl
  have hver : utf8Encode "00" = [48, 48] := rfl
  simp only [headerFieldStr, utf8Encode_append, hsp, hsp8, hnul, hmag, hver,
    List.append_assoc]

/-- Length of the encoded field string under standard widths. -/
theorem headerFieldStr_len (opts : Option POpts) (tf : Char) (isFile : Bool)
    (sz : Int) (ext : Bool) (now : Int)
    (hm : (utf8Encode (modeStr opts tf)).length = 6)
    (hu : (utf8Encode (uidStr opts)).length = 6)
    (hg : (utf8Encode (gidStr opts)).length = 6)
    (hs : (utf8Encode (sizeFieldStr isFile sz ext)).length = 12)
    (hmt : (utf8Encode (mtimeFieldStr opts now)).length = 12)
    (htf : (utf8Encode (String.singleton tf)).length = 1)
    (hun : (utf8Encode (unameStr opts)).length = 32)
    (hgn : (utf8Encode (gnameStr opts)).length = 32)
    (hdj : (utf8Encode (devmajorStr opts)).length = 8)
    (hdn : (utf8Encode (devminorStr opts)).length = 8) :
    (utf8Encode (headerFieldStr opts tf isFile sz ext now)).length = 245 := by
  rw [headerFieldStr_bytes]
  simp only [List.length_append, List.length_replicate, hm, hu, hg, hs, hmt, htf, hun,
    hgn, hdj, hdn, List.length_cons, List.length_nil]

/-- Under standard widths, bytes [48,56) of the field string are the eight
checksum placeholder spaces. -/
theorem headerFieldStr_spaces (opts : Option POpts) (tf : Char) (isFile : Bool)
    (sz : Int) (ext : Bool) (now : Int)
    (hm : (utf8Encode (modeStr opts tf)).length = 6)
    (hu : (utf8Encode (uidStr opts)).length = 6)
    (hg : (utf8Encode (gidStr opts)).length = 6)
    (hs : (utf8Encode (sizeFieldStr isFile sz ext)).length = 12)
    (hmt : (utf8Encode (mtimeFieldStr opts now)).length = 12) :
    ((utf8Encode (headerFieldStr opts tf isFile sz ext now)).drop 48).take 8 =
      List.replicate 8 32 := by
  rw [headerFieldStr_bytes]
  have hgrp : utf8Encode (modeStr opts tf) ++ ([32, 0] ++ (utf8Encode (uidStr opts) ++
      ([32, 0] ++ (utf8Encode (gidStr opts) ++ ([32, 0] ++
      (utf8Encode (sizeFieldStr isFile sz ext) ++ (utf8Encode (mtimeFieldStr opts now) ++
      (List.replicate 8 32 ++ (utf8Encode (String.singleton tf) ++ (List.replicate 100 0 ++
      ([117, 115, 116, 97, 114, 0] ++ ([48, 48] ++ (utf8Encode (unameStr opts) ++
      (utf8Encode (gnameStr opts) ++ (utf8Encode (devmajorStr opts) ++
      utf8Encode (devminorStr opts)))))))))))))))) =
      (utf8Encode (modeStr opts tf) ++ [32, 0] ++ utf8Encode (uidStr opts) ++ [32, 0] ++
       utf8Encode (gidStr opts) ++ [32, 0] ++ utf8Encode (sizeFieldStr isFile sz ext) ++
       utf8Encode (mtimeFieldStr opts now)) ++
      (List.replicate 8 32 ++ (utf8Encode (String.singleton tf) ++ (List.replicate 100 0 ++
      ([117, 115, 116, 97, 114, 0] ++ ([48, 48] ++ (utf8Encode (unameStr opts) ++
      (utf8Encode (gnameStr opts) ++ (utf8Encode (devmajorStr opts) ++
      utf8Encode (devminorStr opts))))))))) := by
    simp only [List.append_assoc]
  rw [hgrp]
  have hlen48 : (utf8Encode (modeStr opts tf) ++ [32, 0] ++ utf8Encode (uidStr opts) ++
      [32, 0] ++ utf8Encode (gidStr opts) ++ [32, 0] ++
      utf8Encode (sizeFieldStr isFile sz ext) ++
      utf8Encode (mtimeFieldStr opts now)).length = 48 := by
    simp only [List.length_append, hm, hu, hg, hs, hmt, List.length_cons, List.length_nil]
  rw [List.drop_left' hlen48,
    List.take_append_of_le_length (by rw [List.length_replicate]),
    List.take_of_length_le (by rw [List.length_replicate])]

end Rchv

namespace Rchv

set_option maxRecDepth 100000

/-! ## Slicing the emitted header -/

/-- Extraction of a middle component of a concatenation. -/
theorem extract_concat (P Q R : List Nat) (off len : Nat)
    (hP : P.length = off) (hQ : Q.length = len) :
    ((P ++ (Q ++ R)).drop off).take len = Q := by
  rw [List.drop_left' hP, List.take_append_of_le_length (le_of_eq hQ.symm),
    List.take_of_length_le (le_of_eq hQ)]

/-- A slice of the emitted header that avoids the checksum overwrite at
[148,155) reads through to the encoded field string (offset 100 of the
block). -/
theorem encodeHeader_field_slice (nameB pfx : List Nat) (opts : Option POpts) (tf : Char)
    (isFile : Bool) (sz : Int) (ext : Bool) (now : Int)
    (hn : nameB.length ≤ 100) (hnb : ∀ b ∈ nameB, b ≤ 255)
    (hp : pfx.length ≤ 155) (hpb : ∀ b ∈ pfx, b ≤ 255)
    (hm : (utf8Encode (modeStr opts tf)).length = 6)
    (hu : (utf8Encode (uidStr opts)).length = 6)
    (hg : (utf8Encode (gidStr opts)).length = 6)
    (hs : (utf8Encode (sizeFieldStr isFile sz ext)).length = 12)
    (hmt : (utf8Encode (mtimeFieldStr opts now)).length = 12)
    (htf : (utf8Encode (String.singleton tf)).length = 1)
    (hun : (utf8Encode (unameStr opts)).length = 32)
    (hgn : (utf8Encode (gnameStr opts)).length = 32)
    (hdj : (utf8Encode (devmajorStr opts)).length = 8)
    (hdn : (utf8Encode (devminorStr opts)).length = 8)
    (off len : Nat) (hoff : 100 ≤ off) (hlen2 : off - 100 + len ≤ 245)
    (hregion : off + len ≤ 148 ∨ 156 ≤ off) :
    ((encodeHeader nameB pfx opts tf isFile sz ext now).drop off).take len =
      ((utf8Encode (headerFieldStr opts tf isFile sz ext now)).drop (off - 100)).take len := by
  have hflen := headerFieldStr_len opts tf isFile sz ext now hm hu hg hs hmt htf hun hgn hdj hdn
  have hlayout := headerPre_layout nameB (utf8Encode (headerFieldStr opts tf isFile sz ext now))
    pfx hn hflen hp
  have hprelen : (jsSet (jsSet (jsSet (List.replicate 512 0) nameB 0)
      (utf8Encode (headerFieldStr opts tf isFile sz ext now)) 100) pfx 345).length = 512 := by
    rw [jsSet_length, jsSet_length, jsSet_length, List.length_replicate]
  have hbytes : ∀ b ∈ jsSet (jsSet (jsSet (List.replicate 512 0) nameB 0)
      (utf8Encode (headerFieldStr opts tf isFile sz ext now)) 100) pfx 345, b ≤ 255 := by
    intro b hb
    rw [hlayout] at hb
    simp only [List.mem_append] at hb
    rcases hb with hb | hb | hb | hb | hb
    · exact hnb b hb
    · rw [List.eq_of_mem_replicate hb]; omega
    · exact utf8Encode_le _ b hb
    · exact hpb b hb
    · rw [List.eq_of_mem_replicate hb]; omega
  have hsum : (jsSet (jsSet (jsSet (List.replicate 512 0) nameB 0)
      (utf8Encode (headerFieldStr opts tf isFile sz ext now)) 100) pfx 345).sum < 262144 := by
    have h1 := List.sum_le_card_nsmul (jsSet (jsSet (jsSet (List.replicate 512 0) nameB 0)
      (utf8Encode (headerFieldStr opts tf isFile sz ext now)) 100) pfx 345) 255 hbytes
    rw [hprelen] at h1
    simp only [smul_eq_mul] at h1
    omega
  have hstoreLen := storeBytes_len _ hsum
  have hset : encodeHeader nameB pfx opts tf isFile sz ext now =
      (jsSet (jsSet (jsSet (List.replicate 512 0) nameB 0)
        (utf8Encode (headerFieldStr opts tf isFile sz ext now)) 100) pfx 345).take 148 ++
      utf8Encode (padStartStr (octString (jsSet (jsSet (jsSet (List.replicate 512 0) nameB 0)
        (utf8Encode (headerFieldStr opts tf isFile sz ext now)) 100) pfx 345).sum) 6 '0' ++
        "\x00") ++
      (jsSet (jsSet (jsSet (List.replicate 512 0) nameB 0)
        (utf8Encode (headerFieldStr opts tf isFile sz ext now)) 100) pfx 345).drop 155 := by
    show jsSet _ _ 148 = _
    rw [jsSet_eq_of_le _ _ _ (by rw [hprelen, hstoreLen]; omega), hstoreLen]
  have hlenA : ((jsSet (jsSet (jsSet (List.replicate 512 0) nameB 0)
      (utf8Encode (headerFieldStr opts tf isFile sz ext now)) 100) pfx 345).take 148).length =
      148 := by
    rw [List.length_take, hprelen]
    omega
  have hmain : ((encodeHeader nameB pfx opts tf isFile sz ext now).drop off).take len =
      ((jsSet (jsSet (jsSet (List.replicate 512 0) nameB 0)
        (utf8Encode (headerFieldStr opts tf isFile sz ext now)) 100) pfx 345).drop off).take
        len := by
    rw [hset]
    rcases hregion with hr | hr
    · rw [List.append_assoc, List.drop_append_of_le_length (by rw [hlenA]; omega),
        List.take_append_of_le_length (by rw [List.length_drop, hlenA]; omega),
        List.drop_take, List.take_take]
      have hmin : min len (148 - off) = len := by omega
      rw [hmin]
    · have hlenAS : (((jsSet (jsSet (jsSet (List.replicate 512 0) nameB 0)
          (utf8Encode (headerFieldStr opts tf isFile sz ext now)) 100) pfx 345).take 148 ++
          utf8Encode (padStartStr (octString (jsSet (jsSet (jsSet (List.replicate 512 0)
          nameB 0) (utf8Encode (headerFieldStr opts tf isFile sz ext now)) 100) pfx
          345).sum) 6 '0' ++ "\x00")).length) = 155 := by
        rw [List.length_append, hlenA, hstoreLen]
      rw [List.drop_append_eq_append_drop, List.drop_eq_nil_of_le (by rw [hlenAS]; omega),
        hlenAS, List.nil_append, List.drop_drop]
      have harith : 155 + (off - 155) = off := by omega
      rw [harith]
  rw [hmain, hlayout]
  have hgrp : nameB ++ (List.replicate (100 - nameB.length) 0 ++
      (utf8Encode (headerFieldStr opts tf isFile sz ext now) ++
      (pfx ++ List.replicate (167 - pfx.length) 0))) =
      (nameB ++ List.replicate (100 - nameB.length) 0) ++
      (utf8Encode (headerFieldStr opts tf isFile sz ext now) ++
      (pfx ++ List.replicate (167 - pfx.length) 0)) := by
    simp only [List.append_assoc]
  rw [hgrp]
  have hlen100 : (nameB ++ List.replicate (100 - nameB.length) 0).length = 100 := by
    simp only [List.length_append, List.length_replicate]
    omega
  rw [List.drop_append_eq_append_drop, List.drop_eq_nil_of_le (by rw [hlen100]; omega),
    hlen100, List.nil_append,
    List.drop_append_of_le_length (by rw [hflen]; omega),
    List.take_append_of_le_length (by rw [List.length_drop, hflen]; omega)]

end Rchv

namespace Rchv

set_option maxRecDepth 1000000

/-- C7 counterexample: an options bag with `mode = "zzzzzzzz"` passes the
(inverted) options validation, so the encoder emits a header whose field
layout is shifted by two bytes; the decoder's checksum recomputation then
fails, so not every emitted header stores a checksum the decoder accepts. -/
theorem c7_counterexample_shifted_mode :
    tarGen 0 1 [Chunk.dir "d" (some { mode := some "zzzzzzzz" })] =
      some (Except.ok [encodeHeader [100, 47] [] (some { mode := some "zzzzzzzz" }) '5'
        false 0 false 0, List.replicate 1024 0]) ∧
    checksumOk (encodeHeader [100, 47] [] (some { mode := some "zzzzzzzz" }) '5'
      false 0 false 0) = false := ⟨rfl, rfl⟩

/-- C7 (amended): for every emitted header whose resolved field strings
occupy their standard layout widths (mode, uid, gid at 6 encoded bytes plus
their terminators, size and mtime fields at 12 bytes, typeflag 1 byte,
uname and gname 32 bytes, devmajor and devminor 8 bytes, name at most 100
bytes, prefix at most 155, all bytes byte-valued), the stored checksum
equals the unsigned byte-sum of the block with the checksum field read as
spaces - the decoder accepts it - and changing any single byte outside the
checksum field [148,156) makes the decoder's validation fail. -/
theorem c7_checksum_sound_and_sensitive
    (nameB pfx : List Nat) (opts : Option POpts) (tf : Char)
    (isFile : Bool) (sz : Int) (ext : Bool) (now : Int)
    (hn : nameB.length ≤ 100) (hnb : ∀ b ∈ nameB, b ≤ 255)
    (hp : pfx.length ≤ 155) (hpb : ∀ b ∈ pfx, b ≤ 255)
    (hm : (utf8Encode (modeStr opts tf)).length = 6)
    (hu : (utf8Encode (uidStr opts)).length = 6)
    (hg : (utf8Encode (gidStr opts)).length = 6)
    (hs : (utf8Encode (sizeFieldStr isFile sz ext)).length = 12)
    (hmt : (utf8Encode (mtimeFieldStr opts now)).length = 12)
    (htf : (utf8Encode (String.singleton tf)).length = 1)
    (hun : (utf8Encode (unameStr opts)).length = 32)
    (hgn : (utf8Encode (gnameStr opts)).length = 32)
    (hdj : (utf8Encode (devmajorStr opts)).length = 8)
    (hdn : (utf8Encode (devminorStr opts)).length = 8) :
    checksumOk (encodeHeader nameB pfx opts tf isFile sz ext now) = true ∧
    ∀ p v, p < 512 → (p < 148 ∨ 156 ≤ p) →
      v ≠ (encodeHeader nameB pfx opts tf isFile sz ext now).getD p 0 →
      checksumOk ((encodeHeader nameB pfx opts tf isFile sz ext now).set p v) = false := by
  have hflen := headerFieldStr_len opts tf isFile sz ext now hm hu hg hs hmt htf hun hgn hdj hdn
  have hlayout := headerPre_layout nameB (utf8Encode (headerFieldStr opts tf isFile sz ext now))
    pfx hn hflen hp
  have hprelen : (jsSet (jsSet (jsSet (List.replicate 512 0) nameB 0)
      (utf8Encode (headerFieldStr opts tf isFile sz ext now)) 100) pfx 345).length = 512 := by
    rw [jsSet_length, jsSet_length, jsSet_length, List.length_replicate]
  have hbytes : ∀ b ∈ jsSet (jsSet (jsSet (List.replicate 512 0) nameB 0)
      (utf8Encode (headerFieldStr opts tf isFile sz ext now)) 100) pfx 345, b ≤ 255 := by
    intro b hb
    rw [hlayout] at hb
    simp only [List.mem_append] at hb
    rcases hb with hb | hb | hb | hb | hb
    · exact hnb b hb
    · rw [List.eq_of_mem_replicate hb]; omega
    · exact utf8Encode_le _ b hb
    · exact hpb b hb
    · rw [List.eq_of_mem_replicate hb]; omega
  have hsp : ((jsSet (jsSet (jsSet (List.replicate 512 0) nameB 0)
      (utf8Encode (headerFieldStr opts tf isFile sz ext now)) 100) pfx 345).drop 148).take 8 =
      List.replicate 8 32 := by
    rw [hlayout]
    have hgrp : nameB ++ (List.replicate (100 - nameB.length) 0 ++
        (utf8Encode (headerFieldStr opts tf isFile sz ext now) ++
        (pfx ++ List.replicate (167 - pfx.length) 0))) =
        (nameB ++ List.replicate (100 - nameB.length) 0) ++
        (utf8Encode (headerFieldStr opts tf isFile sz ext now) ++
        (pfx ++ List.replicate (167 - pfx.length) 0)) := by
      simp only [List.append_assoc]
    rw [hgrp]
    have hlen100 : (nameB ++ List.replicate (100 - nameB.length) 0).length = 100 := by
      simp only [List.length_append, List.length_replicate]
      omega
    rw [List.drop_append_eq_append_drop, List.drop_eq_nil_of_le (by rw [hlen100]; omega),
      hlen100, List.nil_append,
      List.drop_append_of_le_length (by rw [hflen]; omega),
      List.take_append_of_le_length (by rw [List.length_drop, hflen]; omega)]
    have h48 : (148 : Nat) - 100 = 48 := by norm_num
    rw [h48]
    exact headerFieldStr_spaces opts tf isFile sz ext now hm hu hg hs hmt
  have hok : checksumOk (encodeHeader nameB pfx opts tf isFile sz ext now) = true :=
    checksumOk_of_spaces _ hprelen hbytes hsp
  refine ⟨hok, ?_⟩
  intro p v hp2 hout hv
  have hhlen : (encodeHeader nameB pfx opts tf isFile sz ext now).length = 512 := by
    show (jsSet _ _ 148).length = 512
    rw [jsSet_length]
    exact hprelen
  exact checksumOk_flip _ hhlen hok p v hp2 hout hv

/-- Witness for C7 at the header of a concrete one-file archive, flipping
its first byte. -/
theorem c7_checksum_witness :
    checksumOk (encodeHeader [97] [] none '0' true 512 false 0) = true ∧
    checksumOk ((encodeHeader [97] [] none '0' true 512 false 0).set 0 0) = false := by
  have h := c7_checksum_sound_and_sensitive [97] [] none '0' true 512 false 0
    (by decide) (by decide) (by decide) (by decide)
    rfl rfl rfl rfl rfl rfl rfl rfl rfl rfl
  exact ⟨h.1, h.2 0 0 (by decide) (Or.inl (by decide)) (by decide)⟩

end Rchv

namespace Rchv

set_option maxRecDepth 1000000

/-- Bytes of a written buffer come from the target or the source. -/
theorem mem_jsSet (a src : List Nat) (off : Nat) (b : Nat) (hb : b ∈ jsSet a src off) :
    b ∈ a ∨ b ∈ src := by
  simp only [jsSet, List.mem_append] at hb
  rcases hb with (hb | hb) | hb
  · exact Or.inl (List.mem_of_mem_take hb)
  · exact Or.inr (List.mem_of_mem_take hb)
  · exact Or.inl (List.mem_of_mem_drop hb)

/-- A slice that ends before the write offset reads the untouched target. -/
theorem jsSet_slice_before (a src : List Nat) (off p len : Nat)
    (h1 : p + len ≤ off) (h2 : off ≤ a.length) :
    ((jsSet a src off).drop p).take len = (a.drop p).take len := by
  have hlenT : (a.take off).length = off := by
    rw [List.length_take]
    omega
  rw [jsSet, List.append_assoc,
    List.drop_append_of_le_length (by rw [hlenT]; omega),
    List.take_append_of_le_length (by rw [List.length_drop, hlenT]; omega),
    List.drop_take, List.take_take]
  have hmin : min len (off - p) = len := by omega
  rw [hmin]

/-- A slice inside the written region reads the source, shifted by the
write offset. -/
theorem jsSet_slice_inside (a src : List Nat) (off p len : Nat)
    (h1 : off ≤ p) (h2 : p - off + len ≤ src.length) (h3 : p + len ≤ a.length) :
    ((jsSet a src off).drop p).take len = (src.drop (p - off)).take len := by
  have hlenT : (a.take off).length = off := by
    rw [List.length_take]
    omega
  rw [jsSet, List.append_assoc, List.drop_append_eq_append_drop,
    List.drop_eq_nil_of_le (by rw [hlenT]; omega), List.nil_append, hlenT,
    List.drop_append_of_le_length (by rw [List.length_take]; omega),
    List.take_append_of_le_length (by rw [List.length_drop, List.length_take]; omega),
    List.drop_take, List.take_take]
  have hmin : min len (a.length - off - (p - off)) = len := by omega
  rw [hmin]

/-- A slice of the emitted header inside the field region at offset 100,
avoiding the checksum overwrite, reads the encoded field string; unlike
`encodeHeader_field_slice` this needs no field-width assumptions, only that
the requested slice exists inside the field string. -/
theorem encodeHeader_slice_weak (nameB pfx : List Nat) (opts : Option POpts) (tf : Char)
    (isFile : Bool) (sz : Int) (ext : Bool) (now : Int)
    (hnb : ∀ b ∈ nameB, b ≤ 255) (hpb : ∀ b ∈ pfx, b ≤ 255)
    (p len : Nat) (hp100 : 100 ≤ p) (h345 : p + len ≤ 345)
    (hf : p - 100 + len ≤ (utf8Encode (headerFieldStr opts tf isFile sz ext now)).length)
    (hregion : p + len ≤ 148 ∨ 156 ≤ p) :
    ((encodeHeader nameB pfx opts tf isFile sz ext now).drop p).take len =
      ((utf8Encode (headerFieldStr opts tf isFile sz ext now)).drop (p - 100)).take len := by
  have hprelen : (jsSet (jsSet (jsSet (List.replicate 512 0) nameB 0)
      (utf8Encode (headerFieldStr opts tf isFile sz ext now)) 100) pfx 345).length = 512 := by
    rw [jsSet_length, jsSet_length, jsSet_length, List.length_replicate]
  have hmain : ((encodeHeader nameB pfx opts tf isFile sz ext now).drop p).take len =
      ((jsSet (jsSet (jsSet (List.replicate 512 0) nameB 0)
        (utf8Encode (headerFieldStr opts tf isFile sz ext now)) 100) pfx 345).drop p).take
        len := by
    rcases hregion with hr | hr
    · show ((jsSet _ _ 148).drop p).take len = _
      exact jsSet_slice_before _ _ 148 p len (by omega) (by rw [hprelen]; omega)
    · have hbytes : ∀ b ∈ jsSet (jsSet (jsSet (List.replicate 512 0) nameB 0)
          (utf8Encode (headerFieldStr opts tf isFile sz ext now)) 100) pfx 345, b ≤ 255 := by
        intro b hb
        rcases mem_jsSet _ _ _ b hb with hb2 | hb2
        · rcases mem_jsSet _ _ _ b hb2 with hb3 | hb3
          · rcases mem_jsSet _ _ _ b hb3 with hb4 | hb4
            · rw [List.eq_of_mem_replicate hb4]
              omega
            · exact hnb b hb4
          · exact utf8Encode_le _ b hb3
        · exact hpb b hb2
      have hsum : (jsSet (jsSet (jsSet (List.replicate 512 0) nameB 0)
          (utf8Encode (headerFieldStr opts tf isFile sz ext now)) 100) pfx 345).sum <
          262144 := by
        have h1 := List.sum_le_card_nsmul (jsSet (jsSet (jsSet (List.replicate 512 0) nameB 0)
          (utf8Encode (headerFieldStr opts tf isFile sz ext now)) 100) pfx 345) 255 hbytes
        rw [hprelen] at h1
        simp only [smul_eq_mul] at h1
        omega
      have hstoreLen := storeBytes_len _ hsum
      have hset : encodeHeader nameB pfx opts tf isFile sz ext now =
          (jsSet (jsSet (jsSet (List.replicate 512 0) nameB 0)
            (utf8Encode (headerFieldStr opts tf isFile sz ext now)) 100) pfx 345).take 148 ++
          utf8Encode (padStartStr (octString (jsSet (jsSet (jsSet (List.replicate 512 0)
            nameB 0) (utf8Encode (headerFieldStr opts tf isFile sz ext now)) 100) pfx
            345).sum) 6 '0' ++ "\x00") ++
          (jsSet (jsSet (jsSet (List.replicate 512 0) nameB 0)
            (utf8Encode (headerFieldStr opts tf isFile sz ext now)) 100) pfx 345).drop 155 := by
        show jsSet _ _ 148 = _
        rw [jsSet_eq_of_le _ _ _ (by rw [hprelen, hstoreLen]; omega), hstoreLen]
      have hlenA : ((jsSet (jsSet (jsSet (List.replicate 512 0) nameB 0)
          (utf8Encode (headerFieldStr opts tf isFile sz ext now)) 100) pfx 345).take
          148).length = 148 := by
        rw [List.length_take, hprelen]
        omega
      have hlenAS : (((jsSet (jsSet (jsSet (List.replicate 512 0) nameB 0)
          (utf8Encode (headerFieldStr opts tf isFile sz ext now)) 100) pfx 345).take 148 ++
          utf8Encode (padStartStr (octString (jsSet (jsSet (jsSet (List.replicate 512 0)
          nameB 0) (utf8Encode (headerFieldStr opts tf isFile sz ext now)) 100) pfx
          345).sum) 6 '0' ++ "\x00")).length) = 155 := by
        rw [List.length_append, hlenA, hstoreLen]
      rw [hset, List.drop_append_eq_append_drop, List.drop_eq_nil_of_le (by rw [hlenAS]; omega),
        hlenAS, List.nil_append, List.drop_drop]
      have harith : 155 + (p - 155) = p := by omega
      rw [harith]
  rw [hmain,
    jsSet_slice_before _ pfx 345 p len h345
      (by rw [jsSet_length, jsSet_length, List.length_replicate]; omega)]
  exact jsSet_slice_inside _ _ 100 p len hp100 hf
    (by rw [jsSet_length, List.length_replicate]; omega)

end Rchv

namespace Rchv

set_option maxRecDepth 1000000

/-- C6 (amended, per omitted field): in every header the encoder emits, an
omitted uid or gid puts the six-zero octal string (then space and NUL) in
that field, and an omitted devmajor or devminor puts eight NUL bytes there,
each independently of whether the other options are present; an omitted
mode instead defaults to octal 644 for files and 755 for directories,
with no condition at all. Each field after mode sits at its standard ustar
offset exactly when the fields preceding it in the layout encode to their
standard widths (which the stated width hypotheses capture; with an
oversized earlier option the layout shifts and the fixed offsets do not
apply). -/
theorem c6_absent_numeric_fields_default
    (nameB pfx : List Nat) (opts : Option POpts) (isFile : Bool) (sz : Int) (ext : Bool)
    (now : Int) (hnb : ∀ b ∈ nameB, b ≤ 255) (hpb : ∀ b ∈ pfx, b ≤ 255) :
    (opts.bind POpts.mode = none →
      ((encodeHeader nameB pfx opts (if isFile then '0' else '5') isFile sz ext
          now).drop 100).take 8 =
        (if isFile then [48, 48, 48, 54, 52, 52, 32, 0]
         else [48, 48, 48, 55, 53, 53, 32, 0])) ∧
    (opts.bind POpts.uid = none →
      (utf8Encode (modeStr opts (if isFile then '0' else '5'))).length = 6 →
      ((encodeHeader nameB pfx opts (if isFile then '0' else '5') isFile sz ext
          now).drop 108).take 8 = [48, 48, 48, 48, 48, 48, 32, 0]) ∧
    (opts.bind POpts.gid = none →
      (utf8Encode (modeStr opts (if isFile then '0' else '5'))).length = 6 →
      (utf8Encode (uidStr opts)).length = 6 →
      ((encodeHeader nameB pfx opts (if isFile then '0' else '5') isFile sz ext
          now).drop 116).take 8 = [48, 48, 48, 48, 48, 48, 32, 0]) ∧
    (opts.bind POpts.devmajor = none →
      (utf8Encode (modeStr opts (if isFile then '0' else '5'))).length = 6 →
      (utf8Encode (uidStr opts)).length = 6 →
      (utf8Encode (gidStr opts)).length = 6 →
      (utf8Encode (sizeFieldStr isFile sz ext)).length = 12 →
      (utf8Encode (mtimeFieldStr opts now)).length = 12 →
      (utf8Encode (unameStr opts)).length = 32 →
      (utf8Encode (gnameStr opts)).length = 32 →
      ((encodeHeader nameB pfx opts (if isFile then '0' else '5') isFile sz ext
          now).drop 329).take 8 = List.replicate 8 0) ∧
    (opts.bind POpts.devminor = none →
      (utf8Encode (modeStr opts (if isFile then '0' else '5'))).length = 6 →
      (utf8Encode (uidStr opts)).length = 6 →
      (utf8Encode (gidStr opts)).length = 6 →
      (utf8Encode (sizeFieldStr isFile sz ext)).length = 12 →
      (utf8Encode (mtimeFieldStr opts now)).length = 12 →
      (utf8Encode (unameStr opts)).length = 32 →
      (utf8Encode (gnameStr opts)).length = 32 →
      (utf8Encode (devmajorStr opts)).length = 8 →
      ((encodeHeader nameB pfx opts (if isFile then '0' else '5') isFile sz ext
          now).drop 337).take 8 = List.replicate 8 0) := by
  have hfield := headerFieldStr_bytes opts (if isFile then '0' else '5') isFile sz ext now
  have hbig : 122 ≤
      (utf8Encode (headerFieldStr opts (if isFile then '0' else '5') isFile sz ext
        now)).length := by
    rw [hfield]
    simp only [List.length_append, List.length_replicate, List.length_cons, List.length_nil]
    omega
  refine ⟨?_, ?_, ?_, ?_, ?_⟩
  · intro hmode
    have hmodeB : utf8Encode (modeStr opts (if isFile then '0' else '5')) =
        (if isFile then [48, 48, 48, 54, 52, 52] else [48, 48, 48, 55, 53, 53]) := by
      cases isFile <;> simp only [modeStr, hmode, Option.getD_none] <;> rfl
    rw [encodeHeader_slice_weak nameB pfx opts (if isFile then '0' else '5') isFile sz ext
      now hnb hpb 100 8 (by norm_num) (by norm_num) (by omega) (Or.inl (by norm_num))]
    have h0 : (100 : Nat) - 100 = 0 := by norm_num
    rw [h0, List.drop_zero, hfield, hmodeB]
    cases isFile <;>
      simp [List.cons_append, List.nil_append, List.take_succ_cons, List.take_zero]
  · intro huid hm
    have huidB : utf8Encode (uidStr opts) = [48, 48, 48, 48, 48, 48] := by
      simp only [uidStr, huid, Option.getD_none]
      rfl
    rw [encodeHeader_slice_weak nameB pfx opts (if isFile then '0' else '5') isFile sz ext
      now hnb hpb 108 8 (by norm_num) (by norm_num) (by omega) (Or.inl (by norm_num))]
    have h8 : (108 : Nat) - 100 = 8 := by norm_num
    rw [h8, hfield, huidB]
    have hre : utf8Encode (modeStr opts (if isFile then '0' else '5')) ++ ([32, 0] ++
        ([48, 48, 48, 48, 48, 48] ++ ([32, 0] ++ (utf8Encode (gidStr opts) ++ ([32, 0] ++
        (utf8Encode (sizeFieldStr isFile sz ext) ++ (utf8Encode (mtimeFieldStr opts now) ++
        (List.replicate 8 32 ++ (utf8Encode (String.singleton (if isFile then '0'
        else '5')) ++ (List.replicate 100 0 ++ ([117, 115, 116, 97, 114, 0] ++ ([48, 48] ++
        (utf8Encode (unameStr opts) ++ (utf8Encode (gnameStr opts) ++
        (utf8Encode (devmajorStr opts) ++ utf8Encode (devminorStr opts)))))))))))))))) =
        (utf8Encode (modeStr opts (if isFile then '0' else '5')) ++ [32, 0]) ++
        ([48, 48, 48, 48, 48, 48, 32, 0] ++ (utf8Encode (gidStr opts) ++ ([32, 0] ++
        (utf8Encode (sizeFieldStr isFile sz ext) ++ (utf8Encode (mtimeFieldStr opts now) ++
        (List.replicate 8 32 ++ (utf8Encode (String.singleton (if isFile then '0'
        else '5')) ++ (List.replicate 100 0 ++ ([117, 115, 116, 97, 114, 0] ++ ([48, 48] ++
        (utf8Encode (unameStr opts) ++ (utf8Encode (gnameStr opts) ++
        (utf8Encode (devmajorStr opts) ++ utf8Encode (devminorStr opts)))))))))))))) := by
      simp only [List.append_assoc, List.cons_append, List.nil_append]
    rw [hre]
    exact extract_concat _ _ _ 8 8 (by rw [List.length_append, hm]; rfl) rfl
  · intro hgid hm hu
    have hgidB : utf8Encode (gidStr opts) = [48, 48, 48, 48, 48, 48] := by
      simp only [gidStr, hgid, Option.getD_none]
      rfl
    rw [encodeHeader_slice_weak nameB pfx opts (if isFile then '0' else '5') isFile sz ext
      now hnb hpb 116 8 (by norm_num) (by norm_num) (by omega) (Or.inl (by norm_num))]
    have h16 : (116 : Nat) - 100 = 16 := by norm_num
    rw [h16, hfield, hgidB]
    have hre : utf8Encode (modeStr opts (if isFile then '0' else '5')) ++ ([32, 0] ++
        (utf8Encode (uidStr opts) ++ ([32, 0] ++ ([48, 48, 48, 48, 48, 48] ++ ([32, 0] ++
        (utf8Encode (sizeFieldStr isFile sz ext) ++ (utf8Encode (mtimeFieldStr opts now) ++
        (List.replicate 8 32 ++ (utf8Encode (String.singleton (if isFile then '0'
        else '5')) ++ (List.replicate 100 0 ++ ([117, 115, 116, 97, 114, 0] ++ ([48, 48] ++
        (utf8Encode (unameStr opts) ++ (utf8Encode (gnameStr opts) ++
        (utf8Encode (devmajorStr opts) ++ utf8Encode (devminorStr opts)))))))))))))))) =
        (utf8Encode (modeStr opts (if isFile then '0' else '5')) ++ ([32, 0] ++
         (utf8Encode (uidStr opts) ++ [32, 0]))) ++
        ([48, 48, 48, 48, 48, 48, 32, 0] ++
        (utf8Encode (sizeFieldStr isFile sz ext) ++ (utf8Encode (mtimeFieldStr opts now) ++
        (List.replicate 8 32 ++ (utf8Encode (String.singleton (if isFile then '0'
        else '5')) ++ (List.replicate 100 0 ++ ([117, 115, 116, 97, 114, 0] ++ ([48, 48] ++
        (utf8Encode (unameStr opts) ++ (utf8Encode (gnameStr opts) ++
        (utf8Encode (devmajorStr opts) ++ utf8Encode (devminorStr opts)))))))))))) := by
      simp only [List.append_assoc, List.cons_append, List.nil_append]
    rw [hre]
    exact extract_concat _ _ _ 16 8
      (by rw [List.length_append, List.length_append, List.length_append, hm, hu]; rfl) rfl
  · intro hdj hm hu hg hsz hmt hun hgn
    have hdjB : utf8Encode (devmajorStr opts) = List.replicate 8 0 := by
      simp only [devmajorStr, hdj, Option.getD_none]
      rfl
    have htf1 : (utf8Encode (String.singleton (if isFile then '0' else '5'))).length = 1 := by
      cases isFile <;> rfl
    have hflen : 237 ≤
        (utf8Encode (headerFieldStr opts (if isFile then '0' else '5') isFile sz ext
          now)).length := by
      rw [hfield]
      simp only [List.length_append, List.length_replicate, List.length_cons,
        List.length_nil, hm, hu, hg, hsz, hmt, htf1, hun, hgn, hdjB]
      omega
    rw [encodeHeader_slice_weak nameB pfx opts (if isFile then '0' else '5') isFile sz ext
      now hnb hpb 329 8 (by norm_num) (by norm_num) (by omega) (Or.inr (by norm_num))]
    have h229 : (329 : Nat) - 100 = 229 := by norm_num
    rw [h229, hfield, hdjB]
    have hre : utf8Encode (modeStr opts (if isFile then '0' else '5')) ++ ([32, 0] ++
        (utf8Encode (uidStr opts) ++ ([32, 0] ++ (utf8Encode (gidStr opts) ++ ([32, 0] ++
        (utf8Encode (sizeFieldStr isFile sz ext) ++ (utf8Encode (mtimeFieldStr opts now) ++
        (List.replicate 8 32 ++ (utf8Encode (String.singleton (if isFile then '0'
        else '5')) ++ (List.replicate 100 0 ++ ([117, 115, 116, 97, 114, 0] ++ ([48, 48] ++
        (utf8Encode (unameStr opts) ++ (utf8Encode (gnameStr opts) ++
        (List.replicate 8 0 ++ utf8Encode (devminorStr opts)))))))))))))))) =
        (utf8Encode (modeStr opts (if isFile then '0' else '5')) ++ [32, 0] ++
         utf8Encode (uidStr opts) ++ [32, 0] ++ utf8Encode (gidStr opts) ++ [32, 0] ++
         utf8Encode (sizeFieldStr isFile sz ext) ++ utf8Encode (mtimeFieldStr opts now) ++
         List.replicate 8 32 ++ utf8Encode (String.singleton (if isFile then '0'
         else '5')) ++ List.replicate 100 0 ++ [117, 115, 116, 97, 114, 0] ++ [48, 48] ++
         utf8Encode (unameStr opts) ++ utf8Encode (gnameStr opts)) ++
        (List.replicate 8 0 ++ utf8Encode (devminorStr opts)) := by
      simp only [List.append_assoc]
    rw [hre]
    exact extract_concat _ _ _ 229 8
      (by
        simp only [List.length_append, List.length_replicate, List.length_cons,
          List.length_nil, hm, hu, hg, hsz, hmt, htf1, hun, hgn])
      (by rw [List.length_replicate])
  · intro hdn hm hu hg hsz hmt hun hgn hdjw
    have hdnB : utf8Encode (devminorStr opts) = List.replicate 8 0 := by
      simp only [devminorStr, hdn, Option.getD_none]
      rfl
    have htf1 : (utf8Encode (String.singleton (if isFile then '0' else '5'))).length = 1 := by
      cases isFile <;> rfl
    have hflen : 245 ≤
        (utf8Encode (headerFieldStr opts (if isFile then '0' else '5') isFile sz ext
          now)).length := by
      rw [hfield]
      simp only [List.length_append, List.length_replicate, List.length_cons,
        List.length_nil, hm, hu, hg, hsz, hmt, htf1, hun, hgn, hdjw, hdnB]
      omega
    rw [encodeHeader_slice_weak nameB pfx opts (if isFile then '0' else '5') isFile sz ext
      now hnb hpb 337 8 (by norm_num) (by norm_num) (by omega) (Or.inr (by norm_num))]
    have h237 : (337 : Nat) - 100 = 237 := by norm_num
    rw [h237, hfield, hdnB]
    have hre : utf8Encode (modeStr opts (if isFile then '0' else '5')) ++ ([32, 0] ++
        (utf8Encode (uidStr opts) ++ ([32, 0] ++ (utf8Encode (gidStr opts) ++ ([32, 0] ++
        (utf8Encode (sizeFieldStr isFile sz ext) ++ (utf8Encode (mtimeFieldStr opts now) ++
        (List.replicate 8 32 ++ (utf8Encode (String.singleton (if isFile then '0'
        else '5')) ++ (List.replicate 100 0 ++ ([117, 115, 116, 97, 114, 0] ++ ([48, 48] ++
        (utf8Encode (unameStr opts) ++ (utf8Encode (gnameStr opts) ++
        (utf8Encode (devmajorStr opts) ++ List.replicate 8 0))))))))))))))) =
        (utf8Encode (modeStr opts (if isFile then '0' else '5')) ++ [32, 0] ++
         utf8Encode (uidStr opts) ++ [32, 0] ++ utf8Encode (gidStr opts) ++ [32, 0] ++
         utf8Encode (sizeFieldStr isFile sz ext) ++ utf8Encode (mtimeFieldStr opts now) ++
         List.replicate 8 32 ++ utf8Encode (String.singleton (if isFile then '0'
         else '5')) ++ List.replicate 100 0 ++ [117, 115, 116, 97, 114, 0] ++ [48, 48] ++
         utf8Encode (unameStr opts) ++ utf8Encode (gnameStr opts) ++
         utf8Encode (devmajorStr opts)) ++
        (List.replicate 8 0 ++ []) := by
      simp only [List.append_assoc, List.append_nil]
    rw [hre]
    exact extract_concat _ _ _ 237 8
      (by
        simp only [List.length_append, List.length_replicate, List.length_cons,
          List.length_nil, hm, hu, hg, hsz, hmt, htf1, hun, hgn, hdjw])
      (by rw [List.length_replicate])

end Rchv

namespace Rchv

set_option maxRecDepth 1000000

/-- Witness for C6: a file descriptor named "a" with an explicit empty
options bag gets mode "000644 ", uid and gid "000000 ", and NUL-filled
devmajor and devminor fields at their standard offsets. -/
theorem c6_absent_numeric_fields_default_witness :
    ((encodeHeader [97] [] (some ⟨none, none, none, none, none, none, none, none⟩)
        '0' true 512 false 0).drop 100).take 8 = [48, 48, 48, 54, 52, 52, 32, 0] ∧
    ((encodeHeader [97] [] (some ⟨none, none, none, none, none, none, none, none⟩)
        '0' true 512 false 0).drop 108).take 8 = [48, 48, 48, 48, 48, 48, 32, 0] ∧
    ((encodeHeader [97] [] (some ⟨none, none, none, none, none, none, none, none⟩)
        '0' true 512 false 0).drop 116).take 8 = [48, 48, 48, 48, 48, 48, 32, 0] ∧
    ((encodeHeader [97] [] (some ⟨none, none, none, none, none, none, none, none⟩)
        '0' true 512 false 0).drop 329).take 8 = List.replicate 8 0 ∧
    ((encodeHeader [97] [] (some ⟨none, none, none, none, none, none, none, none⟩)
        '0' true 512 false 0).drop 337).take 8 = List.replicate 8 0 := by
  have h := c6_absent_numeric_fields_default [97] []
    (some ⟨none, none, none, none, none, none, none, none⟩) true 512 false 0
    (by decide) (by decide)
  exact ⟨h.1 rfl, h.2.1 rfl rfl, h.2.2.1 rfl rfl rfl,
    h.2.2.2.1 rfl rfl rfl rfl rfl rfl rfl rfl,
    h.2.2.2.2 rfl rfl rfl rfl rfl rfl rfl rfl rfl⟩

end Rchv
